import Mathlib

/-!
Verification of the burrow SPDY/2–SPDY/3 server engine (github.com/mkch/burrow)
against its natural-language specification.

The Go sources are shallowly embedded: machine integers become Nat with
explicit reductions modulo 2^8 / 2^32 where Go truncates, byte streams become
List Nat (each element a byte value), Go panics and returned errors become
Except String, and the stateful connection engine becomes explicit state
passing.  Definitions are translated from the Go sources; each definition
carries a reference to the function it embeds.
-/

namespace Burrow

/-! ## Go machine arithmetic

Go shift semantics for unsigned integers: a left shift keeps the low bits of
the width (reduction modulo 2^w), a right shift by at least the width gives 0,
which Nat shiftRight does automatically for values below 2^w. -/

/-- Reduction of a Go uint32 expression. -/
def u32 (n : Nat) : Nat := n % 4294967296

/-- Go uint32 left shift: truncates to 32 bits. -/
def goShl32 (x s : Nat) : Nat := u32 (x <<< s)

/-- Go byte (uint8) left shift: truncates to 8 bits. -/
def goShl8 (x s : Nat) : Nat := (x <<< s) % 256

/-- Value of a byte list read as a big-endian unsigned integer
(encoding/binary BigEndian.Uint32 restricted to the bytes actually read). -/
def beVal (bytes : List Nat) : Nat := bytes.foldl (fun a b => a * 256 + b) 0

/-- Big-endian 4-byte encoding of a uint32 (binary.BigEndian.PutUint32). -/
def bePut32 (n : Nat) : List Nat :=
  [(n >>> 24) % 256, (n >>> 16) % 256, (n >>> 8) % 256, n % 256]

/-! ## Bitwise wire codec: fields.Encoder and fields.Decoder
Source: spdy/framing/fields (Decoder.ReadBits, Encoder.WriteBits). -/

/-- State of fields.Encoder: bytes already written to the underlying writer,
the pending byte b (pending bits stored in its high positions), and the count
of pending bits (0..7).  The 4-byte writeBuf is modeled by the byte list
appended per call. -/
structure Encoder where
  out : List Nat
  b : Nat
  pending : Nat
  deriving DecidableEq, Repr

/-- fields.NewEncoder. -/
def NewEncoder : Encoder := { out := [], b := 0, pending := 0 }

/-- fields.Encoder.IsClean. -/
def Encoder.IsClean (e : Encoder) : Bool := e.pending == 0

/-- fields.Encoder.WriteBits, translated line by line.  In the flushing
branch, Go computes the shift amount of e.b as count-pending-8+e.pending in
int arithmetic; that quantity equals bitsToWrite - pending - 8 and is
non-negative there, which is how it is written below (Nat subtraction would
otherwise truncate in the wrong order). -/
def Encoder.WriteBits (e : Encoder) (count : Nat) (n0 : Nat) : Except String Encoder :=
  if count = 0 || count > 32 then .error "Invalid bit count to write!"
  else
    let n := u32 n0
    let bitsToWrite := count + e.pending
    if bitsToWrite < 8 then
      .ok { e with b := e.b ||| goShl8 (n % 256) (8 - bitsToWrite), pending := bitsToWrite }
    else
      let bytesToWrite0 := bitsToWrite / 8
      let pending := bitsToWrite % 8
      let b := (goShl32 n (32 - pending) >>> (24 - pending)) % 256
      let n1 := u32 ((n >>> pending) ||| goShl32 e.b (bitsToWrite - pending - 8))
      let n2 := goShl32 n1 (32 - bytesToWrite0 * 8)
      let bytesToWrite := if bytesToWrite0 > 4 then 4 else bytesToWrite0
      let buf := (bePut32 n2).take bytesToWrite
      .ok { out := e.out ++ buf, b := b, pending := pending }

/-- State of fields.Decoder: the bytes remaining in the underlying reader,
the byte b holding left-over bits of the previous non-aligned read in its low
positions, and the count of left-over bits (0..7).  The garbage in readBuf is
irrelevant: the source masks it out before use, and d.b is always assigned the
last byte actually read. -/
structure Decoder where
  inp : List Nat
  b : Nat
  leftOver : Nat
  deriving DecidableEq, Repr

/-- fields.NewDecoder. -/
def NewDecoder (inp : List Nat) : Decoder := { inp := inp, b := 0, leftOver := 0 }

/-- fields.Decoder.IsClean. -/
def Decoder.IsClean (d : Decoder) : Bool := d.leftOver == 0

/-- fields.Decoder.ReadBits, translated line by line.  io.ReadFull failing on
a short stream becomes an error result. -/
def Decoder.ReadBits (d : Decoder) (count : Nat) : Except String (Nat × Decoder) :=
  if count = 0 || count > 32 then .error "Invalid bit count to read!"
  else
    if count ≤ d.leftOver then
      let n := (d.b &&& (255 >>> (8 - d.leftOver))) >>> (d.leftOver - count)
      .ok (n, { d with leftOver := d.leftOver - count })
    else
      let bitsNeeded := count - d.leftOver
      let bytesNeeded := bitsNeeded / 8 + (if bitsNeeded % 8 = 0 then 0 else 1)
      if d.inp.length < bytesNeeded then .error "io.ReadFull: EOF"
      else
        let buf := d.inp.take bytesNeeded
        let n0 := beVal buf
        let leftOver := bytesNeeded * 8 - bitsNeeded
        let n1 := n0 >>> leftOver
        let patch := goShl32 (d.b &&& (255 >>> (8 - d.leftOver))) (count - d.leftOver)
        let n2 := n1 ||| patch
        .ok (n2, { inp := d.inp.drop bytesNeeded,
                   b := if leftOver > 0 then buf.getD (bytesNeeded - 1) 0 else d.b,
                   leftOver := leftOver })

/-- Drive a sequence of WriteBits calls (count, value) from a given encoder. -/
def encodeAll : Encoder → List (Nat × Nat) → Except String Encoder
  | e, [] => .ok e
  | e, (c, v) :: rest => do
      let e1 ← e.WriteBits c v
      encodeAll e1 rest

/-- Drive a sequence of ReadBits calls, collecting the values read. -/
def decodeAll : Decoder → List Nat → Except String (List Nat × Decoder)
  | d, [] => .ok ([], d)
  | d, c :: rest => do
      let (v, d1) ← d.ReadBits c
      let (vs, d2) ← decodeAll d1 rest
      .ok (v :: vs, d2)

/-! ## Binary search: sort.Search
Source: Go standard library sort.Search, as invoked by the header-block and
setting-entries containers. -/

/-- The loop of sort.Search on the half-open interval [i, j).  The loop
shrinks j - i by at least one per iteration, so any fuel of at least j - i
makes the fuel bound unreachable; structural recursion on the fuel keeps the
function kernel-computable. -/
def goSearchAux (fuel : Nat) (f : Nat → Bool) (i j : Nat) : Nat :=
  match fuel with
  | 0 => i
  | fuel + 1 =>
    if i < j then
      let m := (i + j) / 2
      if f m then goSearchAux fuel f i m else goSearchAux fuel f (m + 1) j
    else i

/-- sort.Search(n, f): the smallest index in [0, n] at which f flips to true,
assuming f monotone. -/
def goSortSearch (n : Nat) (f : Nat → Bool) : Nat := goSearchAux n f 0 n

/-! ## Header blocks (v2 and v3)
Source: framing headerBlockV2 / headerBlockV3.  Go strings become byte lists;
Go string comparison is bytewise lexicographic.  strings.ToLower is modeled on
ASCII data (the only data the engine feeds it), where it adds 32 to the bytes
65..90. -/

abbrev GoStr := List Nat

/-- Go bytewise lexicographic string comparison a < b. -/
def goStrLess : GoStr → GoStr → Bool
  | [], [] => false
  | [], _ :: _ => true
  | _ :: _, [] => false
  | a :: as, b :: bs => if a < b then true else if b < a then false else goStrLess as bs

/-- Go string comparison a >= b, that is not (a < b). -/
def goStrGE (a b : GoStr) : Bool := !(goStrLess a b)

/-- strings.ToLower on ASCII bytes. -/
def goToLower (s : GoStr) : GoStr := s.map (fun c => if 65 ≤ c ∧ c ≤ 90 then c + 32 else c)

/-- A (name, value) header pair.  The source has two structurally identical
copies, nameValueV2 and nameValueV3, that differ only in their serialization
tags (lenbits:16 versus lenbits:32), which do not affect container logic. -/
structure nameValue where
  Name : GoStr
  Value : GoStr
  deriving DecidableEq, Inhabited, Repr

/-- Element insertion as performed by the insert methods of the source
(append one slot, shift the tail right with copy, place the element); the
index is within bounds at every call site, so the bound-check panic branch is
unreachable. -/
def listInsertAt {α : Type} (l : List α) (i : Nat) (p : α) : List α :=
  l.take i ++ p :: l.drop i

/-- headerBlockV2.search: binary search for a (lowercased) name; returns the
sort.Search index and whether the name is present there. -/
def headerBlockV2.search (h : List nameValue) (name : GoStr) : Nat × Bool :=
  let i := goSortSearch h.length (fun k => goStrGE (h.getD k default).Name name)
  (i, decide (i < h.length) && ((h.getD i default).Name == name))

/-- headerBlockV2.Add. -/
def headerBlockV2.Add (h : List nameValue) (name : GoStr) (value : List GoStr) :
    Except String (List nameValue) :=
  if name.length = 0 then .error "ErrInvalidHeaderName"
  else
    let nameL := goToLower name
    let v := List.intercalate [0] value
    match headerBlockV2.search h nameL with
    | (i, found) =>
      if found then
        .ok (h.set i { h.getD i default with Value := (h.getD i default).Value ++ 0 :: v })
      else
        .ok (listInsertAt h i { Name := nameL, Value := v })

/-- headerBlockV2.GetFirst: the stored value up to (excluding) its first NUL
byte, via strings.IndexRune. -/
def headerBlockV2.GetFirst (h : List nameValue) (name : GoStr) : GoStr :=
  let nameL := goToLower name
  match headerBlockV2.search h nameL with
  | (i, found) =>
    if found then
      let v := (h.getD i default).Value
      if v.contains 0 then v.takeWhile (fun c => c ≠ 0) else v
    else []

/-- headerBlockV2.Get: strings.Split of the stored value on NUL. -/
def headerBlockV2.Get (h : List nameValue) (name : GoStr) : List GoStr :=
  let nameL := goToLower name
  match headerBlockV2.search h nameL with
  | (i, found) => if found then ((h.getD i default).Value).splitOn 0 else []

/-- headerBlockV2.Names. -/
def headerBlockV2.Names (h : List nameValue) : List GoStr := h.map (·.Name)

/-- headerBlockV3.search: textually identical to the v2 version. -/
def headerBlockV3.search (h : List nameValue) (name : GoStr) : Nat × Bool :=
  let i := goSortSearch h.length (fun k => goStrGE (h.getD k default).Name name)
  (i, decide (i < h.length) && ((h.getD i default).Name == name))

/-- headerBlockV3.Add: textually identical to the v2 version. -/
def headerBlockV3.Add (h : List nameValue) (name : GoStr) (value : List GoStr) :
    Except String (List nameValue) :=
  if name.length = 0 then .error "ErrInvalidHeaderName"
  else
    let nameL := goToLower name
    let v := List.intercalate [0] value
    match headerBlockV3.search h nameL with
    | (i, found) =>
      if found then
        .ok (h.set i { h.getD i default with Value := (h.getD i default).Value ++ 0 :: v })
      else
        .ok (listInsertAt h i { Name := nameL, Value := v })

/-- headerBlockV3.GetFirst: textually identical to the v2 version. -/
def headerBlockV3.GetFirst (h : List nameValue) (name : GoStr) : GoStr :=
  let nameL := goToLower name
  match headerBlockV3.search h nameL with
  | (i, found) =>
    if found then
      let v := (h.getD i default).Value
      if v.contains 0 then v.takeWhile (fun c => c ≠ 0) else v
    else []

/-- headerBlockV3.Names: textually identical to the v2 version. -/
def headerBlockV3.Names (h : List nameValue) : List GoStr := h.map (·.Name)

/-! ## Setting entries (v2, with the little-endian id quirk)
Source: framing settingEntriesV2, toV2BuggySettingID, fromV2BuggySettingID. -/

/-- toV2BuggySettingID: write n little-endian into 4 bytes, shift the low 3
bytes one position right (copy is memmove-like), zero the first byte, and read
the result back big-endian. -/
def toV2BuggySettingID (n0 : Nat) : Nat :=
  let n := u32 n0
  let bytes := [n % 256, (n >>> 8) % 256, (n >>> 16) % 256, (n >>> 24) % 256]
  let bytes2 := [0, bytes.getD 0 0, bytes.getD 1 0, bytes.getD 2 0]
  beVal bytes2

/-- fromV2BuggySettingID: write n big-endian into 4 bytes, shift bytes 1..3
one position left, zero the last byte, and read the result back
little-endian. -/
def fromV2BuggySettingID (n0 : Nat) : Nat :=
  let n := u32 n0
  let bytes := bePut32 n
  let bytes2 := [bytes.getD 1 0, bytes.getD 2 0, bytes.getD 3 0, 0]
  bytes2.getD 0 0 + bytes2.getD 1 0 * 256 + bytes2.getD 2 0 * 65536 +
    bytes2.getD 3 0 * 16777216

/-- A (id, flags, value) setting entry (v2). -/
structure settingEntryV2 where
  ID : Nat
  Flags : Nat
  Value : Nat
  deriving DecidableEq, Inhabited, Repr

/-- settingEntriesV2.search: binary search in the corrected
(fromV2BuggySettingID) key space; the ID argument is already in the quirky
on-wire form. -/
def settingEntriesV2.search (s : List settingEntryV2) (ID : Nat) : Nat × Bool :=
  let i := goSortSearch s.length
    (fun k => decide (fromV2BuggySettingID (s.getD k default).ID ≥ fromV2BuggySettingID ID))
  (i, decide (i < s.length) && ((s.getD i default).ID == ID))

/-- settingEntriesV2.Set. -/
def settingEntriesV2.Set (s : List settingEntryV2) (ID flags value : Nat) :
    Except String (List settingEntryV2) :=
  if ID < 1 || ID > 7 then .error "ErrInvalidSettingID"
  else
    let IDb := toV2BuggySettingID ID
    if flags ≠ 0 ∧ flags ≠ 1 ∧ flags ≠ 2 then .error "ErrInvalidSettingFlags"
    else
      match settingEntriesV2.search s IDb with
      | (i, found) =>
        if found then
          .ok (s.set i { s.getD i default with Flags := flags, Value := value })
        else
          .ok (listInsertAt s i { ID := IDb, Flags := flags, Value := value })

/-- settingEntriesV2.Get. -/
def settingEntriesV2.Get (s : List settingEntryV2) (ID : Nat) : Nat × Nat × Bool :=
  let IDb := toV2BuggySettingID ID
  match settingEntriesV2.search s IDb with
  | (i, found) =>
    if found then ((s.getD i default).Flags, (s.getD i default).Value, true)
    else (0, 0, false)

/-! ## Blocking priority queue
Source: spdy/util/proirity_queue.go on top of Go container/heap.  The heap
storage is the backing slice; Push and Pop reproduce container/heap.Push and
container/heap.Pop (sift-up, sift-down).  The semaphore only blocks on
empty/full and never alters the contents, so it does not appear in the
state. -/

/-- Slice element swap q[i], q[j] = q[j], q[i]. -/
def lswap {α : Type} [Inhabited α] (l : List α) (i j : Nat) : List α :=
  (l.set i (l.getD j default)).set j (l.getD i default)

/-- container/heap up(h, j): sift the element at j towards the root.  In Go,
(j-1)/2 equals j exactly when j = 0 (int division truncating toward zero),
which is the loop exit; j strictly decreases per iteration, so fuel j + 1 is
never exhausted. -/
def heapUp {α : Type} [Inhabited α] (less : α → α → Bool) :
    Nat → List α → Nat → List α
  | 0, l, _ => l
  | fuel + 1, l, j =>
    if (j - 1) / 2 = j then l
    else if less (l.getD j default) (l.getD ((j - 1) / 2) default) then
      heapUp less fuel (lswap l ((j - 1) / 2) j) ((j - 1) / 2)
    else l

/-- container/heap down(h, i, n): sift the element at i down within l[0:n].
The index i strictly increases and stays below n, so fuel n is never
exhausted. -/
def heapDown {α : Type} [Inhabited α] (less : α → α → Bool) :
    Nat → List α → Nat → Nat → List α
  | 0, l, _, _ => l
  | fuel + 1, l, i, n =>
    if 2 * i + 1 ≥ n then l
    else
      let j := if 2 * i + 2 < n ∧ less (l.getD (2 * i + 2) default) (l.getD (2 * i + 1) default)
        then 2 * i + 2 else 2 * i + 1
      if less (l.getD j default) (l.getD i default) then heapDown less fuel (lswap l i j) j n
      else l

/-- container/heap.Push: append, then sift up from the last slot. -/
def heapPush {α : Type} [Inhabited α] (less : α → α → Bool) (l : List α) (x : α) : List α :=
  heapUp less (l.length + 1) (l ++ [x]) l.length

/-- container/heap.Pop: swap the root with the last slot, sift down over the
prefix, remove and return the last slot.  The queue semaphore guarantees the
heap is never popped empty. -/
def heapPop {α : Type} [Inhabited α] (less : α → α → Bool) (l : List α) :
    Option (α × List α) :=
  if l.isEmpty then none
  else
    let n := l.length - 1
    let l2 := heapDown less (n + 1) (lswap l 0 n) 0 n
    some (l2.getD n default, l2.take n)

/-- priorityQueue.Less: container/heap pops the least item first, and the
source defines Less i j as NOT q[i].TakePrecedenceOver(q[j]). -/
def priorityQueueLess {α : Type} (tpo : α → α → Bool) (a b : α) : Bool := !(tpo a b)

/-- BlockingPriorityQueue.Push.  The parameter is a Go interface value, so it
can be nil (modeled by none); priorityQueue.Push performs the type assertion
x.(PriorityItem), which panics on a nil interface. -/
def bqPush {α : Type} [Inhabited α] (tpo : α → α → Bool) (q : List α) (item : Option α) :
    Except String (List α) :=
  match item with
  | none => .error "interface conversion: interface is nil, not util.PriorityItem"
  | some x => .ok (heapPush (priorityQueueLess tpo) q x)

/-- BlockingPriorityQueue.Pop (the semaphore blocks rather than pops when the
queue is empty; items in the heap are never nil because a nil push already
panics, so the PriorityItem assertion in Pop always succeeds). -/
def bqPop {α : Type} [Inhabited α] (tpo : α → α → Bool) (q : List α) :
    Option (α × List α) :=
  heapPop (priorityQueueLess tpo) q

/-- Pop k items in sequence, collecting them in pop order. -/
def bqPopAll {α : Type} [Inhabited α] (tpo : α → α → Bool) : Nat → List α → List α
  | 0, _ => []
  | k + 1, q =>
    match bqPop tpo q with
    | none => []
    | some (x, q1) => x :: bqPopAll tpo k q1

/-- Push a batch of non-nil items in order into an empty queue. -/
def bqPushBatch {α : Type} [Inhabited α] (tpo : α → α → Bool) (items : List α) : List α :=
  items.foldl (fun q x => heapPush (priorityQueueLess tpo) q x) []

/-! ## Frames and connection engine
Source: spdy/conn.go and the framing constructors it calls.  Only the frame
fields the engine inspects are modeled. -/

def FLAG_FIN : Nat := 1
def FLAG_UNIDIRECTIONAL : Nat := 2
def STATUS_PROTOCOL_ERROR : Nat := 1
def STATUS_INVALID_STREAM : Nat := 2
def STATUS_INTERNAL_ERROR : Nat := 6
def STATUS_STREAM_IN_USE : Nat := 8
def STATUS_STREAM_ALREADY_CLOSED : Nat := 9
def MAX_STREAM_ID : Nat := 0x8FFFFFFF
def maxFramePriority : Nat := 0xFF

/-- framing.StatusCodeStreamInUse (panics on an unsupported version). -/
def StatusCodeStreamInUse (version : Nat) : Except String Nat :=
  if version = 2 then .ok STATUS_PROTOCOL_ERROR
  else if version = 3 then .ok STATUS_STREAM_IN_USE
  else .error "panic: ErrUnsupportedVersion"

/-- A framing.Frame as far as the connection engine inspects it. -/
inductive GFrame where
  | rstStream (streamID statusCode : Nat)
  | synStream (streamID flags priority associatedTo : Nat) (headers : List nameValue)
  | synReply (streamID flags : Nat)
  | ping (id : Nat)
  | goAway (lastGood : Nat) (statusCode : Option Nat)
  | dataFrame (streamID flags len : Nat)
  deriving DecidableEq, Inhabited, Repr

/-- The f.(framing.FrameWithStreamID) type assertion in conn.writeFrame:
frames with a StreamID method yield their stream id.  Ping frames expose ID()
and GoAway frames LastGoodStreamID(), neither of which is StreamID(), so both
fail the assertion. -/
def GFrame.streamIDOf : GFrame → Option Nat
  | .rstStream sid _ => some sid
  | .synStream sid _ _ _ _ => some sid
  | .synReply sid _ => some sid
  | .dataFrame sid _ _ => some sid
  | .ping _ => none
  | .goAway _ _ => none

/-- framing.NewRstStream (value validation of newRstStreamV2 and
newRstStreamV3; v2 accepts status codes 1..7, v3 accepts 1..11). -/
def NewRstStream (version streamID statusCode : Nat) : Except String GFrame :=
  if version = 2 then
    if streamID = 0 || streamID > MAX_STREAM_ID then .error "ErrInvalidStreamID"
    else if statusCode < 1 || statusCode > 7 then .error "ErrInvalidStatausCode"
    else .ok (.rstStream streamID statusCode)
  else if version = 3 then
    if streamID = 0 || streamID > MAX_STREAM_ID then .error "ErrInvalidStreamID"
    else if statusCode < 1 || statusCode > 11 then .error "ErrInvalidStatausCode"
    else .ok (.rstStream streamID statusCode)
  else .error "ErrUnsupportedVersion"

/-- Per-stream engine state (the stream struct in conn.go).  Reader is true
when a request-body pipe was created by newPipe(). -/
structure StreamRec where
  ID : Nat
  Priority : Nat
  Headers : Option (List nameValue)
  peerHalfClosed : Bool
  halfClosed : Bool
  Reader : Bool
  deriving DecidableEq, Inhabited, Repr

/-- stream.TakePrecedenceOver. -/
def streamTakePrecedenceOver (s other : StreamRec) : Bool :=
  if s.Priority == other.Priority then s.ID < other.ID
  else s.Priority > other.Priority

/-- A frame queued for egress with its priority and sequence number. -/
structure frameWithPriority where
  Priority : Nat
  Seq : Nat
  Frame : Option GFrame
  deriving DecidableEq, Inhabited, Repr

/-- frameWithPriority.TakePrecedenceOver. -/
def frameTakePrecedenceOver (f other : frameWithPriority) : Bool :=
  if f.Priority == other.Priority then f.Seq < other.Seq
  else f.Priority > other.Priority

/-- Connection state as far as the claims need it: the live-stream registry
(an association list; assignment prepends, and lookup takes the first hit,
matching map overwrite), the last accepted client stream id, the frame write
sequence counter, and, in push order, the items accepted onto the stream
dispatch queue and onto the frame egress queue.  The internal heap layout of
the two queues is modeled separately by heapPush/heapPop. -/
structure Conn where
  Version : Nat
  lastGoodStreamID : Nat
  liveStreams : List (Nat × StreamRec)
  streamQPushes : List StreamRec
  framePushes : List frameWithPriority
  frameWriteSeq : Nat
  deriving DecidableEq, Inhabited, Repr

/-- conn.getStream. -/
def Conn.getStream (c : Conn) (streamID : Nat) : Option StreamRec :=
  c.liveStreams.lookup streamID

/-- conn.addStream (map assignment). -/
def Conn.addStream (c : Conn) (s : StreamRec) : Conn :=
  { c with liveStreams := (s.ID, s) :: c.liveStreams }

/-- conn.writeFrame: the frame egress filter followed by the sequence-stamped
push onto the egress queue.  A frame carrying a stream id whose stream is not
live, or whose stream is half closed, is silently discarded. -/
def Conn.writeFrame (c : Conn) (f : GFrame) (priority : Nat) : Conn :=
  let enq : Conn :=
    let seq := c.frameWriteSeq + 1
    { c with frameWriteSeq := seq,
             framePushes := c.framePushes ++ [{ Priority := priority, Seq := seq, Frame := some f }] }
  match f.streamIDOf with
  | some sid =>
    match c.getStream sid with
    | none => c
    | some st => if st.halfClosed then c else enq
  | none => enq

/-- conn.writeRstStreamID; framing.NewRstStream failing is a log.Panicf. -/
def Conn.writeRstStreamID (c : Conn) (streamID statusCode : Nat) : Except String Conn :=
  match NewRstStream c.Version streamID statusCode with
  | .error e => .error ("log.Panicf: SPDY create frame error: " ++ e)
  | .ok f => .ok (c.writeFrame f maxFramePriority)

/-- conn.writeRstStream. -/
def Conn.writeRstStream (c : Conn) (st : StreamRec) (statusCode : Nat) :
    Except String Conn :=
  if st.halfClosed then .ok c else c.writeRstStreamID st.ID statusCode

/-- The FRAME_SYN_STREAM case of conn.readControlFrame: stream id validation,
duplicate check, stream registration and dispatch-queue push. -/
def Conn.handleSynStream (c : Conn) (streamID flags priority : Nat)
    (headers : List nameValue) : Except String Conn :=
  if streamID = 0 || streamID % 2 = 0 || streamID < c.lastGoodStreamID then
    c.writeRstStreamID streamID STATUS_PROTOCOL_ERROR
  else
    let c1 := { c with lastGoodStreamID := streamID }
    match c1.getStream streamID with
    | some st => do
        let code ← StatusCodeStreamInUse c1.Version
        c1.writeRstStream st code
    | none =>
      let st : StreamRec :=
        { ID := streamID, Priority := priority, Headers := some headers,
          peerHalfClosed := flags == FLAG_FIN,
          halfClosed := flags == FLAG_UNIDIRECTIONAL,
          Reader := !(flags == FLAG_FIN) }
      let c2 := c1.addStream st
      .ok { c2 with streamQPushes := c2.streamQPushes ++ [st] }

/-- The FRAME_PING case of conn.readControlFrame: echo the frame back at the
maximum egress priority. -/
def Conn.handlePing (c : Conn) (f : GFrame) : Conn :=
  c.writeFrame f maxFramePriority

/-- newServerStreamID.  The counter nextServerStreamID is a package-level
variable shared by every connection in the process; the function returns the
updated counter together with the allocated id. -/
def newServerStreamID (nextServerStreamID : Nat) : Nat × Nat :=
  (nextServerStreamID + 2, nextServerStreamID + 2)

/-- The stream registration performed by conn.push: allocate an even id from
the shared counter and register the new stream born peer-half-closed.
Returns (updated shared counter, allocated id, updated connection). -/
def Conn.push (c : Conn) (nextServerStreamID : Nat) (priority : Nat) :
    Nat × Nat × Conn :=
  let (g1, id) := newServerStreamID nextServerStreamID
  let st : StreamRec :=
    { ID := id, Priority := priority, Headers := none,
      peerHalfClosed := true, halfClosed := false, Reader := false }
  (g1, id, c.addStream st)

/-! ## Response writer
Source: spdy/util_v3.go responseWriterV3 (responseWriterV2 is textually
identical apart from the header names it injects, which do not affect frame
production).  Body bytes are tracked by count: the writer never inspects
buffered byte values, only lengths.  Emitted frames are recorded as events
carrying the data needed by the claims: the frame length, its FIN flag, the
fin parameter writeBufFrame was called with (true exactly for the flush issued
by Close), and the cumulative written length and content length at emission
time. -/

def MAX_DATA_LEN : Nat := 10240

/-- One frame handed to conn.writeFrame by the response writer. -/
inductive RWEvent where
  | synReplyFrame (fin : Bool)
  | dataFrame (len : Nat) (fin : Bool) (finParam : Bool) (cum : Nat) (cLen : Nat)
  | rstStreamFrame (statusCode : Nat)
  deriving DecidableEq, Repr

/-- responseWriterV3 state.  headerContentLength is the parsed value of the
content-length entry of the handler-visible header map (none when absent or
unparseable); ctrlSettable tells whether the control frame implements
SetFlags (true for SYN_REPLY, false for the server-push SYN_STREAM). -/
structure RespWriter where
  headerContentLength : Option Nat
  ctrlSettable : Bool
  writeHeaderCalled : Bool
  ctrlFrameWritten : Bool
  bufLen : Nat
  contentLen : Nat
  writtenLen : Nat
  deriving DecidableEq, Repr

/-- newResponseWriterV3. -/
def newResponseWriterV3 (ctrlSettable : Bool) (cl : Option Nat) : RespWriter :=
  { headerContentLength := cl, ctrlSettable := ctrlSettable,
    writeHeaderCalled := false, ctrlFrameWritten := false,
    bufLen := 0, contentLen := 0, writtenLen := 0 }

/-- responseWriterV3.WriteHeader: record the status and the content length
bound; idempotent. -/
def RespWriter.WriteHeader (w : RespWriter) : RespWriter :=
  if w.writeHeaderCalled then w
  else
    { w with
      contentLen := match w.headerContentLength with | some l => l | none => w.contentLen,
      writeHeaderCalled := true }

/-- responseWriterV3.writeBufFrame.  The Bool result reports the
Content-Length mismatch error (which resets the buffer and emits
RST_STREAM(INTERNAL_ERROR) instead of a data frame). -/
def RespWriter.writeBufFrame (w : RespWriter) (fin : Bool) :
    RespWriter × List RWEvent × Bool :=
  let bufLen := w.bufLen
  let writtenLen := w.writtenLen + bufLen
  if w.contentLen ≠ 0 ∧ writtenLen > w.contentLen then
    ({ w with bufLen := 0 }, [.rstStreamFrame STATUS_INTERNAL_ERROR], true)
  else
    let forceFin : Bool := (w.contentLen != 0) && (writtenLen == w.contentLen)
    ({ w with writtenLen := writtenLen },
     [.dataFrame bufLen (fin || forceFin) fin writtenLen w.contentLen], false)

/-- The chunking loop of responseWriterV3.Write.  p is the length of the
remaining input; the fuel bounds loop iterations (each iteration either
buffers the rest, or flushes MAX_DATA_LEN - bufLen further bytes). -/
def RespWriter.writeLoop : Nat → RespWriter → Nat → RespWriter × List RWEvent
  | 0, w, _ => (w, [])
  | fuel + 1, w, p =>
    if p = 0 then (w, [])
    else
      if p < MAX_DATA_LEN - w.bufLen then
        ({ w with bufLen := w.bufLen + p }, [])
      else
        let r := RespWriter.writeBufFrame
          { w with bufLen := w.bufLen + (MAX_DATA_LEN - w.bufLen) } false
        if r.2.2 then (r.1, r.2.1)
        else
          let r2 := RespWriter.writeLoop fuel { r.1 with bufLen := 0 }
            (p - (MAX_DATA_LEN - w.bufLen))
          (r2.1, r.2.1 ++ r2.2)

/-- responseWriterV3.Write: implicit WriteHeader, lazy SYN_REPLY emission,
then the chunking loop. -/
def RespWriter.Write (w : RespWriter) (p : Nat) : RespWriter × List RWEvent :=
  let t : RespWriter × List RWEvent :=
    if (w.WriteHeader).ctrlFrameWritten then (w.WriteHeader, [])
    else ({ w.WriteHeader with ctrlFrameWritten := true }, [RWEvent.synReplyFrame false])
  let r := RespWriter.writeLoop (p + 2) t.1 p
  (r.1, t.2 ++ r.2)

/-- responseWriterV3.Close: with no body written, attach FIN to the control
frame if it supports SetFlags and emit it (a server-push SYN_STREAM does not,
and nothing is emitted); otherwise flush a terminal frame unless a content
length is set and the buffer is empty. -/
def RespWriter.Close (w : RespWriter) : RespWriter × List RWEvent :=
  if !w.ctrlFrameWritten then
    if w.ctrlSettable then
      ({ w with ctrlFrameWritten := true }, [.synReplyFrame true])
    else (w, [])
  else if w.contentLen = 0 || w.bufLen > 0 then
    ((w.writeBufFrame true).1, (w.writeBufFrame true).2.1)
  else (w, [])

/-- Handler-visible operations on the response writer. -/
inductive RWOp where
  | write (n : Nat)
  | writeHeader
  | close
  deriving DecidableEq, Repr

/-- One handler operation on the response writer. -/
def runRWStep (w : RespWriter) : RWOp → RespWriter × List RWEvent
  | .write n => w.Write n
  | .writeHeader => (w.WriteHeader, [])
  | .close => w.Close

/-- Run a sequence of handler operations, collecting emitted frames. -/
def runRW : RespWriter → List RWOp → RespWriter × List RWEvent
  | w, [] => (w, [])
  | w, op :: rest =>
    let s := runRWStep w op
    let next := runRW s.1 rest
    (next.1, s.2 ++ next.2)

/-- The amended C7 per-frame check: a data frame is at most MAX_DATA_LEN long,
and carries FIN exactly when it was flushed by Close or when the cumulative
body bytes reached a set content length. -/
def dataFrameOk : RWEvent → Bool
  | .dataFrame len fin finParam cum cLen =>
      decide (len ≤ MAX_DATA_LEN) && (fin == (finParam || ((cLen != 0) && (cum == cLen))))
  | _ => true

/-- An idle version-3 connection with no live streams. -/
def conn0v3 : Conn :=
  { Version := 3, lastGoodStreamID := 0, liveStreams := [],
    streamQPushes := [], framePushes := [], frameWriteSeq := 0 }

/-- Sortedness invariant of the v2 setting-entries container: all stored ids
fit the 24-bit on-wire field, and the entries are strictly sorted in the
corrected (fromV2BuggySettingID) key space. -/
def SInv (s : List settingEntryV2) : Prop :=
  (∀ e ∈ s, e.ID < 16777216) ∧
    List.Pairwise
      (fun a b => fromV2BuggySettingID a.ID < fromV2BuggySettingID b.ID) s

/-! ## Header-block drivers and abstract value map -/

/-- Well-formedness of a header block: every stored name is lowercase, and
the entries are strictly sorted by Go string comparison on names. -/
def HInv (h : List nameValue) : Prop :=
  (∀ e ∈ h, goToLower e.Name = e.Name) ∧
    List.Pairwise (fun a b : nameValue => goStrLess a.Name b.Name = true) h

/-- The value stored under an (already lowercased) name, read through the
source binary search: the common core of Get and GetFirst. -/
def hbLookup (h : List nameValue) (n : GoStr) : Option GoStr :=
  match headerBlockV2.search h n with
  | (i, found) => if found then some ((h.getD i default).Value) else none

/-- The value a header block is expected to hold for a list of added value
strings: absent when none were added, otherwise all of them joined by NUL. -/
def storedOf (vs : List GoStr) : Option GoStr :=
  if vs = [] then none else some (List.intercalate [0] vs)

/-- Run a sequence of Add operations on a v2 header block. -/
def runAddsFrom (h : List nameValue) :
    List (GoStr × List GoStr) → Except String (List nameValue)
  | [] => .ok h
  | op :: rest =>
    match headerBlockV2.Add h op.1 op.2 with
    | .error e => .error e
    | .ok h2 => runAddsFrom h2 rest

/-- Run a sequence of Add operations on an empty v2 header block. -/
def runAdds (ops : List (GoStr × List GoStr)) : Except String (List nameValue) :=
  runAddsFrom [] ops

/-- Run a sequence of Add operations on a v3 header block. -/
def runAddsFromV3 (h : List nameValue) :
    List (GoStr × List GoStr) → Except String (List nameValue)
  | [] => .ok h
  | op :: rest =>
    match headerBlockV3.Add h op.1 op.2 with
    | .error e => .error e
    | .ok h2 => runAddsFromV3 h2 rest

/-- Run a sequence of Add operations on an empty v3 header block. -/
def runAddsV3 (ops : List (GoStr × List GoStr)) : Except String (List nameValue) :=
  runAddsFromV3 [] ops

/-- All value strings added under a given lowercased name by a sequence of
Add operations, in order. -/
def addedValues (n : GoStr) : List (GoStr × List GoStr) → List GoStr
  | [] => []
  | op :: rest =>
    if goToLower op.1 = n then op.2 ++ addedValues n rest else addedValues n rest

/-! ## Theorems -/

/-- Correctness of the sort.Search loop: on a monotone predicate it returns
the least index at which the predicate holds (or the right endpoint). -/
theorem goSearchAux_correct (f : Nat → Bool) (n : Nat)
    (hmono : ∀ a b : Nat, a ≤ b → b < n → f a = true → f b = true) :
    ∀ (fuel i j : Nat), j - i ≤ fuel → i ≤ j → j ≤ n →
      (∀ k, k < i → f k = false) → (f j = true ∨ j = n) →
      i ≤ goSearchAux fuel f i j ∧ goSearchAux fuel f i j ≤ j ∧
        (∀ k, k < goSearchAux fuel f i j → f k = false) ∧
        (f (goSearchAux fuel f i j) = true ∨ goSearchAux fuel f i j = n) := by
  intro fuel
  induction fuel with
  | zero =>
    intro i j hfuel hij hjn hpre hpost
    have hij2 : i = j := by omega
    subst hij2
    exact ⟨Nat.le_refl _, Nat.le_refl _, hpre, hpost⟩
  | succ fuel ih =>
    intro i j hfuel hij hjn hpre hpost
    unfold goSearchAux
    by_cases hlt : i < j
    · rw [if_pos hlt]
      dsimp only
      by_cases hfm : f ((i + j) / 2) = true
      · rw [if_pos hfm]
        have := ih i ((i + j) / 2) (by omega) (by omega) (by omega) hpre (Or.inl hfm)
        exact ⟨this.1, by omega, this.2.2.1, this.2.2.2⟩
      · rw [if_neg hfm]
        have hfm2 : f ((i + j) / 2) = false := by
          revert hfm
          cases f ((i + j) / 2) <;> simp
        have hpre2 : ∀ k, k < (i + j) / 2 + 1 → f k = false := by
          intro k hk
          by_cases hki : k < i
          · exact hpre k hki
          · cases hfk : f k with
            | false => rfl
            | true =>
              exfalso
              have : f ((i + j) / 2) = true :=
                hmono k ((i + j) / 2) (by omega) (by omega) hfk
              rw [this] at hfm2
              exact Bool.noConfusion hfm2
        have := ih ((i + j) / 2 + 1) j (by omega) (by omega) hjn hpre2 hpost
        exact ⟨by omega, this.2.1, this.2.2.1, this.2.2.2⟩
    · rw [if_neg hlt]
      have hij2 : i = j := by omega
      refine ⟨Nat.le_refl _, by omega, hpre, ?_⟩
      rw [hij2]
      exact hpost

/-- Correctness of sort.Search from 0 to n. -/
theorem goSortSearch_correct (n : Nat) (f : Nat → Bool)
    (hmono : ∀ a b : Nat, a ≤ b → b < n → f a = true → f b = true) :
    goSortSearch n f ≤ n ∧ (∀ k, k < goSortSearch n f → f k = false) ∧
      (f (goSortSearch n f) = true ∨ goSortSearch n f = n) := by
  have h := goSearchAux_correct f n hmono n 0 n (by omega) (by omega) (Nat.le_refl n)
    (fun k hk => absurd hk (Nat.not_lt_zero k)) (Or.inr rfl)
  exact ⟨h.2.1, h.2.2.1, h.2.2.2⟩

/-- Specification of sort.Search over an index-keyed strictly sorted range,
for a strict-order Bool comparison lt: the result r is at most n, every index
below r has key strictly below the target, and the key at r (when r < n) is
not below the target. -/
theorem sortedSearch_spec {κ : Type} (lt : κ → κ → Bool)
    (htrans : ∀ x y z, lt x y = true → lt y z = true → lt x z = true)
    (keyAt : Nat → κ) (n : Nat) (target : κ)
    (hsorted : ∀ a b, a < b → b < n → lt (keyAt a) (keyAt b) = true) :
    goSortSearch n (fun k => !(lt (keyAt k) target)) ≤ n ∧
      (∀ k, k < goSortSearch n (fun k => !(lt (keyAt k) target)) →
        lt (keyAt k) target = true) ∧
      (goSortSearch n (fun k => !(lt (keyAt k) target)) < n →
        lt (keyAt (goSortSearch n (fun k => !(lt (keyAt k) target)))) target = false) := by
  have hmono : ∀ a b : Nat, a ≤ b → b < n →
      (fun k => !(lt (keyAt k) target)) a = true →
      (fun k => !(lt (keyAt k) target)) b = true := by
    intro a b hab hbn ha
    simp only [Bool.not_eq_true'] at ha ⊢
    cases hab.lt_or_eq with
    | inl hlt2 =>
      cases hfb : lt (keyAt b) target with
      | false => rfl
      | true =>
        exfalso
        have := htrans (keyAt a) (keyAt b) target (hsorted a b hlt2 hbn) hfb
        rw [this] at ha
        cases ha
    | inr heq =>
      rw [← heq]
      exact ha
  obtain ⟨h1, h2, h3⟩ := goSortSearch_correct n (fun k => !(lt (keyAt k) target)) hmono
  refine ⟨h1, ?_, ?_⟩
  · intro k hk
    have := h2 k hk
    simpa using this
  · intro hlt2
    cases h3 with
    | inl h => simpa using h
    | inr h => omega

/-- C1: the claimed behavior fails on the code, evaluated on a fresh v3
connection.  (a) An even stream id (2) is detected as a violation and
writeRstStreamID is invoked, but the resulting RST_STREAM(PROTOCOL_ERROR) is
silently discarded by the egress filter in conn.writeFrame, because no stream
with that id is registered: the connection state is completely unchanged, so
nothing is enqueued.  (b) A zero stream id makes framing.NewRstStream fail and
the reader loop panics via log.Panicf instead of emitting RST_STREAM.  (c) A
stale odd id (3 with last accepted 5) is likewise detected but its RST is
discarded.  (d) An id equal to the last accepted id (3) is not treated as a
violation at all: the monotonicity check uses strictly-less, so with no live
stream 3 the SYN_STREAM is accepted and registered without any RST_STREAM. -/
theorem spdy_C1_syn_stream_validation_eval :
    conn0v3.handleSynStream 2 0 0 [] = .ok conn0v3 ∧
    conn0v3.handleSynStream 0 0 0 [] =
      .error "log.Panicf: SPDY create frame error: ErrInvalidStreamID" ∧
    ({ conn0v3 with lastGoodStreamID := 5 } : Conn).handleSynStream 3 0 0 [] =
      .ok { conn0v3 with lastGoodStreamID := 5 } ∧
    ({ conn0v3 with lastGoodStreamID := 3 } : Conn).handleSynStream 3 1 0 [] =
      .ok { conn0v3 with
              lastGoodStreamID := 3,
              liveStreams := [(3, { ID := 3, Priority := 0, Headers := some [],
                                    peerHalfClosed := true, halfClosed := false,
                                    Reader := false })],
              streamQPushes := [{ ID := 3, Priority := 0, Headers := some [],
                                  peerHalfClosed := true, halfClosed := false,
                                  Reader := false }] } :=
  ⟨rfl, rfl, rfl, rfl⟩

/-- C10: the half-close flags of a newly registered stream are derived by
comparing the whole flags byte for equality with FLAG_FIN and with
FLAG_UNIDIRECTIONAL.  For any accepted SYN_STREAM whose flags byte is neither
exactly 0x01 nor exactly 0x02 (for example the combination 0x03), the stream
is registered with peerHalfClosed = false and halfClosed = false and a
request-body pipe is created. -/
theorem spdy_C10_flags_compared_for_equality
    (c : Conn) (streamID flags priority : Nat) (headers : List nameValue)
    (hid : ¬(streamID = 0 ∨ streamID % 2 = 0 ∨ streamID < c.lastGoodStreamID))
    (hlive : c.getStream streamID = none)
    (h1 : flags ≠ FLAG_FIN) (h2 : flags ≠ FLAG_UNIDIRECTIONAL) :
    c.handleSynStream streamID flags priority headers =
      .ok { c with
            lastGoodStreamID := streamID,
            liveStreams :=
              (streamID, { ID := streamID, Priority := priority, Headers := some headers,
                           peerHalfClosed := false, halfClosed := false,
                           Reader := true }) :: c.liveStreams,
            streamQPushes :=
              c.streamQPushes ++
                [{ ID := streamID, Priority := priority, Headers := some headers,
                   peerHalfClosed := false, halfClosed := false, Reader := true }] } := by
  have h0 : ¬ streamID = 0 := fun h => hid (Or.inl h)
  have he : ¬ streamID % 2 = 0 := fun h => hid (Or.inr (Or.inl h))
  have hl2 : ¬ streamID < c.lastGoodStreamID := fun h => hid (Or.inr (Or.inr h))
  have hfin : (flags == FLAG_FIN) = false := by simpa using h1
  have huni : (flags == FLAG_UNIDIRECTIONAL) = false := by simpa using h2
  have hget : Conn.getStream { c with lastGoodStreamID := streamID } streamID = none := hlive
  have hcond : (decide (streamID = 0) || decide (streamID % 2 = 0) ||
      decide (streamID < c.lastGoodStreamID)) = false := by
    simp [h0, he, hl2]
  unfold Conn.handleSynStream
  simp only [hcond, Bool.false_eq_true, if_false, hget, hfin, huni, Bool.not_false]
  rfl

/-- Witness for C10 at the concrete input streamID 1, flags 0x03 (FIN and
UNIDIRECTIONAL combined), priority 2 on an idle connection. -/
theorem spdy_C10_flags_compared_for_equality_witness :
    conn0v3.handleSynStream 1 3 2 [] =
      .ok { conn0v3 with
            lastGoodStreamID := 1,
            liveStreams :=
              [(1, { ID := 1, Priority := 2, Headers := some [],
                     peerHalfClosed := false, halfClosed := false, Reader := true })],
            streamQPushes :=
              [{ ID := 1, Priority := 2, Headers := some [],
                 peerHalfClosed := false, halfClosed := false, Reader := true }] } :=
  spdy_C10_flags_compared_for_equality conn0v3 1 3 2 [] (by decide) rfl
    (by decide) (by decide)

/-- C2: the pop order of the blocking priority queue is the exact inverse of
the order induced by TakePrecedenceOver.  priorityQueue.Less is defined as
NOT TakePrecedenceOver while container/heap pops the least element, so the
least-precedence item pops first and FIFO ties pop newest-first.  Evaluated on
a batch of two equal-priority frames (sequence numbers 1 then 2, so the first
takes precedence) popped as (2, 1), and on two equal-priority streams (ids 1
and 3, so id 1 takes precedence) popped as (3, 1). -/
theorem spdy_C2_queue_pop_order_inverted :
    frameTakePrecedenceOver { Priority := 5, Seq := 1, Frame := some (.ping 1) }
      { Priority := 5, Seq := 2, Frame := some (.ping 2) } = true ∧
    bqPopAll frameTakePrecedenceOver 2 (bqPushBatch frameTakePrecedenceOver
      [{ Priority := 5, Seq := 1, Frame := some (.ping 1) },
       { Priority := 5, Seq := 2, Frame := some (.ping 2) }]) =
      [{ Priority := 5, Seq := 2, Frame := some (.ping 2) },
       { Priority := 5, Seq := 1, Frame := some (.ping 1) }] ∧
    streamTakePrecedenceOver
      { ID := 1, Priority := 1, Headers := none,
        peerHalfClosed := false, halfClosed := false, Reader := true }
      { ID := 3, Priority := 1, Headers := none,
        peerHalfClosed := false, halfClosed := false, Reader := true } = true ∧
    bqPopAll streamTakePrecedenceOver 2 (bqPushBatch streamTakePrecedenceOver
      [{ ID := 1, Priority := 1, Headers := none,
         peerHalfClosed := false, halfClosed := false, Reader := true },
       { ID := 3, Priority := 1, Headers := none,
         peerHalfClosed := false, halfClosed := false, Reader := true }]) =
      [{ ID := 3, Priority := 1, Headers := none,
         peerHalfClosed := false, halfClosed := false, Reader := true },
       { ID := 1, Priority := 1, Headers := none,
         peerHalfClosed := false, halfClosed := false, Reader := true }] :=
  ⟨rfl, rfl, rfl, rfl⟩

/-- C3: the PING echo is enqueued at the maximum priority 0xFF, and an
0xFF-priority administrative frame takes precedence over a data frame queued
at an ordinary stream priority — yet the queue emits the administrative frame
LAST: with the inverted heap comparison, a batch of a GOAWAY at priority 0xFF
(sequence 1) and a data frame at priority 3 (sequence 2) pops the data frame
first. -/
theorem spdy_C3_admin_frames_emitted_last :
    (conn0v3.handlePing (.ping 7)).framePushes =
      [{ Priority := 255, Seq := 1, Frame := some (.ping 7) }] ∧
    frameTakePrecedenceOver
      { Priority := 255, Seq := 1, Frame := some (.goAway 0 (some 1)) }
      { Priority := 3, Seq := 2, Frame := some (.dataFrame 1 0 100) } = true ∧
    bqPopAll frameTakePrecedenceOver 2 (bqPushBatch frameTakePrecedenceOver
      [{ Priority := 255, Seq := 1, Frame := some (.goAway 0 (some 1)) },
       { Priority := 3, Seq := 2, Frame := some (.dataFrame 1 0 100) }]) =
      [{ Priority := 3, Seq := 2, Frame := some (.dataFrame 1 0 100) },
       { Priority := 255, Seq := 1, Frame := some (.goAway 0 (some 1)) }] :=
  ⟨rfl, rfl, rfl⟩

/-- C5: the server-push stream id counter is a package-level variable shared
by every connection of the process, not a per-connection counter.  The first
push of connection A receives id 2, but the first push of a different
connection B performed afterwards receives id 4, although the claim requires
every connection's first pushed stream to receive id 2. -/
theorem spdy_C5_push_id_counter_shared_across_connections :
    (conn0v3.push 0 3).2.1 = 2 ∧
    (({ conn0v3 with lastGoodStreamID := 1 } : Conn).push (conn0v3.push 0 3).1 3).2.1 = 4 ∧
    (4 : Nat) ≠ 2 :=
  ⟨rfl, rfl, by decide⟩

/-- C6: pushing the nil stream sentinel onto the stream dispatch queue does
not complete without failure: BlockingPriorityQueue.Push receives a nil
PriorityItem interface and priorityQueue.Push performs the type assertion
x.(PriorityItem) on it, which panics — so the serve loop never gets to pop
the sentinel.  The frame-queue sentinel (a non-nil frameWithPriority whose
Frame field is nil) is pushed and popped fine. -/
theorem spdy_C6_nil_stream_sentinel_panics :
    bqPush streamTakePrecedenceOver ([] : List StreamRec) none =
      .error "interface conversion: interface is nil, not util.PriorityItem" ∧
    bqPush frameTakePrecedenceOver ([] : List frameWithPriority)
      (some { Priority := 0, Seq := 0, Frame := none }) =
      .ok [{ Priority := 0, Seq := 0, Frame := none }] ∧
    bqPop frameTakePrecedenceOver [{ Priority := 0, Seq := 0, Frame := none }] =
      some ({ Priority := 0, Seq := 0, Frame := none }, []) :=
  ⟨rfl, rfl, rfl⟩

/-- C7 counterexample: with content-length 20480 set, one write of 10240
bytes flushes a full data frame without FIN, and the subsequent close() emits
nothing (content length set, buffer empty), so the final body frame does NOT
carry FIN although close() was called — refuting the claimed biconditional at
this input. -/
theorem spdy_C7_close_without_fin_counterexample :
    runRW (newResponseWriterV3 true (some 20480)) [.write 10240, .close] =
      ({ headerContentLength := some 20480, ctrlSettable := true,
         writeHeaderCalled := true, ctrlFrameWritten := true,
         bufLen := 0, contentLen := 20480, writtenLen := 10240 },
       [.synReplyFrame false, .dataFrame 10240 false false 10240 20480]) := rfl

/-- fromV2BuggySettingID in arithmetic normal form. -/
theorem fromV2_eq (x : Nat) :
    fromV2BuggySettingID x =
      x % 4294967296 / 65536 % 256 + x % 4294967296 / 256 % 256 * 256 +
        x % 4294967296 % 256 * 65536 := by
  unfold fromV2BuggySettingID bePut32 u32
  simp [Nat.shiftRight_eq_div_pow]

/-- fromV2BuggySettingID on 24-bit values: a byte permutation. -/
theorem fromV2_eq24 (x : Nat) (hx : x < 16777216) :
    fromV2BuggySettingID x = x / 65536 + x / 256 % 256 * 256 + x % 256 * 65536 := by
  rw [fromV2_eq]
  omega

set_option maxRecDepth 4000 in
/-- A 24-bit stored id whose corrected key is a valid setting id must be that
setting id in its quirky on-wire form (injectivity at the relevant points). -/
theorem fromV2_eq_small (z : Nat) (hz : z < 16777216) (id : Nat) (h1 : 1 ≤ id)
    (h2 : id ≤ 7) (h : fromV2BuggySettingID z = id) : z = toV2BuggySettingID id := by
  have hto : toV2BuggySettingID id = id * 65536 := by
    interval_cases id <;> decide
  rw [hto]
  rw [fromV2_eq24 z hz] at h
  have d1 : z / 256 / 256 = z / 65536 := by rw [Nat.div_div_eq_div_mul]
  set lo := z % 256 with hlo
  set mid := z / 256 % 256 with hmid
  set hi := z / 65536 with hhi
  have hzeq : z = lo + 256 * mid + 65536 * hi := by omega
  have hlo2 : lo < 256 := by omega
  have hmid2 : mid < 256 := by omega
  have hhi2 : hi < 256 := by omega
  clear_value lo mid hi
  clear hlo hmid hhi d1
  omega

set_option maxRecDepth 4000 in
/-- The quirky round trip on valid setting ids. -/
theorem from_to_id (id : Nat) (h1 : 1 ≤ id) (h2 : id ≤ 7) :
    fromV2BuggySettingID (toV2BuggySettingID id) = id := by
  interval_cases id <;> decide

set_option maxRecDepth 4000 in
/-- The quirky form of a valid setting id fits 24 bits. -/
theorem to_id_small (id : Nat) (h1 : 1 ≤ id) (h2 : id ≤ 7) :
    toV2BuggySettingID id < 16777216 := by
  interval_cases id <;> decide

/-- On Nat, the predicate a >= b is the negation of a < b, as Bools. -/
theorem decide_ge_eq_not_lt (a b : Nat) : decide (a ≥ b) = !(decide (a < b)) := by
  by_cases h : a < b
  · have h2 : ¬ a ≥ b := by omega
    simp [h, h2]
  · have h2 : a ≥ b := by omega
    simp [h, h2]

/-- The index key of a setting-entries list. -/
theorem settingKey_sorted (s : List settingEntryV2) (hinv : SInv s) :
    ∀ a b, a < b → b < s.length →
      decide (fromV2BuggySettingID ((s.getD a default).ID) <
        fromV2BuggySettingID ((s.getD b default).ID)) = true := by
  intro a b hab hb
  have ha : a < s.length := by omega
  rw [List.getD_eq_getElem s default ha, List.getD_eq_getElem s default hb]
  exact decide_eq_true (List.pairwise_iff_getElem.mp hinv.2 a b ha hb hab)

/-- Characterization of settingEntriesV2.search on a sorted list: the raw
sort.Search result with the entry-key reading. -/
theorem settingSearch_spec (s : List settingEntryV2) (hinv : SInv s) (IDb : Nat) :
    (settingEntriesV2.search s IDb).1 ≤ s.length ∧
      (∀ k, k < (settingEntriesV2.search s IDb).1 →
        fromV2BuggySettingID ((s.getD k default).ID) < fromV2BuggySettingID IDb) ∧
      ((settingEntriesV2.search s IDb).1 < s.length →
        ¬ fromV2BuggySettingID ((s.getD (settingEntriesV2.search s IDb).1 default).ID) <
          fromV2BuggySettingID IDb) ∧
      ((settingEntriesV2.search s IDb).2 = true ↔
        ((settingEntriesV2.search s IDb).1 < s.length ∧
          (s.getD (settingEntriesV2.search s IDb).1 default).ID = IDb)) := by
  have hpred : (fun k => decide (fromV2BuggySettingID ((s.getD k default).ID) ≥
      fromV2BuggySettingID IDb)) =
      (fun k => !((fun a b : Nat => decide (a < b))
        (fromV2BuggySettingID ((s.getD k default).ID)) (fromV2BuggySettingID IDb))) := by
    funext k
    exact decide_ge_eq_not_lt _ _
  have htrans : ∀ x y z : Nat, decide (x < y) = true → decide (y < z) = true →
      decide (x < z) = true := by
    intro x y z h1 h2
    simp at h1 h2 ⊢
    omega
  have hspec := sortedSearch_spec (fun a b : Nat => decide (a < b)) htrans
    (fun k => fromV2BuggySettingID ((s.getD k default).ID)) s.length
    (fromV2BuggySettingID IDb) (settingKey_sorted s hinv)
  unfold settingEntriesV2.search
  dsimp only
  rw [hpred]
  refine ⟨hspec.1, ?_, ?_, ?_⟩
  · intro k hk
    have := hspec.2.1 k hk
    simpa using this
  · intro hlt
    have := hspec.2.2 hlt
    simpa using this
  · constructor
    · intro hfound
      have h1 := (Bool.and_eq_true _ _).mp hfound
      exact ⟨of_decide_eq_true h1.1, by simpa using h1.2⟩
    · intro ⟨h1, h2⟩
      apply (Bool.and_eq_true _ _).mpr
      exact ⟨decide_eq_true h1, by simpa using h2⟩

/-- listInsertAt agrees with List.insertIdx on in-range indices. -/
theorem listInsertAt_eq {α : Type} (l : List α) (i : Nat) (p : α) (h : i ≤ l.length) :
    listInsertAt l i p = List.insertIdx i p l := by
  induction l generalizing i with
  | nil =>
    have : i = 0 := by simpa using h
    subst this
    rfl
  | cons a t ih =>
    cases i with
    | zero => rfl
    | succ i =>
      have ht : i ≤ t.length := by simpa using h
      show a :: listInsertAt t i p = List.insertIdx (i + 1) p (a :: t)
      rw [List.insertIdx_succ_cons, ih i ht]

/-- getD of an element strictly before the insertion point. -/
theorem getD_insertAt_lt {α : Type} [Inhabited α] (l : List α) (i : Nat) (x : α) (k : Nat)
    (hi : i ≤ l.length) (hk : k < i) :
    (listInsertAt l i x).getD k default = l.getD k default := by
  have hk2 : k < l.length := by omega
  rw [listInsertAt_eq l i x hi,
    List.getD_eq_getElem _ _ (by rw [List.length_insertIdx _ _ hi]; omega),
    List.getD_eq_getElem _ _ hk2]
  exact List.getElem_insertIdx_of_lt l x i k hk hk2

/-- getD at the insertion point. -/
theorem getD_insertAt_self {α : Type} [Inhabited α] (l : List α) (i : Nat) (x : α)
    (hi : i ≤ l.length) :
    (listInsertAt l i x).getD i default = x := by
  rw [listInsertAt_eq l i x hi,
    List.getD_eq_getElem _ _ (by rw [List.length_insertIdx _ _ hi]; omega)]
  exact List.getElem_insertIdx_self l x i hi

/-- getD of an element strictly after the insertion point. -/
theorem getD_insertAt_gt {α : Type} [Inhabited α] (l : List α) (i : Nat) (x : α) (k : Nat)
    (hi : i ≤ l.length) (hk1 : i < k) (hk2 : k < l.length + 1) :
    (listInsertAt l i x).getD k default = l.getD (k - 1) default := by
  have h3 : i + (k - i - 1) < l.length := by omega
  rw [listInsertAt_eq l i x hi,
    List.getD_eq_getElem _ _ (by rw [List.length_insertIdx _ _ hi]; omega),
    List.getD_eq_getElem _ _ (show k - 1 < l.length by omega)]
  have e := List.getElem_insertIdx_add_succ l x i (k - i - 1) h3
  simp only [show i + (k - i - 1) = k - 1 from by omega] at e
  simp only [show k - 1 + 1 = k from by omega] at e
  exact e

/-- Length of listInsertAt on in-range indices. -/
theorem length_listInsertAt {α : Type} (l : List α) (i : Nat) (x : α) (hi : i ≤ l.length) :
    (listInsertAt l i x).length = l.length + 1 := by
  rw [listInsertAt_eq l i x hi]
  exact List.length_insertIdx i l hi

/-- Membership in listInsertAt. -/
theorem mem_listInsertAt {α : Type} (l : List α) (i : Nat) (x : α) (e : α)
    (he : e ∈ listInsertAt l i x) : e = x ∨ e ∈ l := by
  unfold listInsertAt at he
  rcases List.mem_append.mp he with h1 | h1
  · exact Or.inr (List.take_subset i l h1)
  · rcases List.mem_cons.mp h1 with h2 | h2
    · exact Or.inl h2
    · exact Or.inr (List.drop_subset i l h2)

/-- Pairwise order is preserved by inserting an element at a point that
dominates everything before it and is dominated by everything from it on. -/
theorem pairwise_insertAt {α : Type} [Inhabited α] {R : α → α → Prop} (l : List α) (i : Nat)
    (x : α) (hi : i ≤ l.length) (hpair : List.Pairwise R l)
    (hbefore : ∀ k, k < i → R (l.getD k default) x)
    (hafter : ∀ k, i ≤ k → k < l.length → R x (l.getD k default)) :
    List.Pairwise R (listInsertAt l i x) := by
  rw [listInsertAt_eq l i x hi]
  rw [List.pairwise_iff_getElem] at hpair ⊢
  intro a b ha hb hab
  rw [List.length_insertIdx _ _ hi] at ha hb
  by_cases hbi : b < i
  · rw [List.getElem_insertIdx_of_lt l x i a (by omega) (by omega),
      List.getElem_insertIdx_of_lt l x i b (by omega) (by omega)]
    exact hpair a b (by omega) (by omega) hab
  · by_cases hbeq : b = i
    · subst hbeq
      rw [List.getElem_insertIdx_of_lt l x b a hab (by omega),
        List.getElem_insertIdx_self l x b hi]
      have hb3 := hbefore a (by omega)
      rwa [List.getD_eq_getElem _ _ (by omega)] at hb3
    · have hb2 : getElem (List.insertIdx i x l) b
          (by rw [List.length_insertIdx _ _ hi]; omega) =
          getElem l (b - 1) (by omega) := by
        have e := List.getElem_insertIdx_add_succ l x i (b - i - 1)
          (by omega : i + (b - i - 1) < l.length)
        simp only [show i + (b - i - 1) = b - 1 from by omega] at e
        simp only [show b - 1 + 1 = b from by omega] at e
        exact e
      rw [hb2]
      by_cases hai : a < i
      · rw [List.getElem_insertIdx_of_lt l x i a hai (by omega)]
        exact hpair a (b - 1) (by omega) (by omega) (by omega)
      · by_cases haeq : a = i
        · subst haeq
          rw [List.getElem_insertIdx_self l x a hi]
          have ha3 := hafter (b - 1) (by omega) (by omega)
          rwa [List.getD_eq_getElem _ _ (by omega)] at ha3
        · have ha2 : getElem (List.insertIdx i x l) a
              (by rw [List.length_insertIdx _ _ hi]; omega) =
              getElem l (a - 1) (by omega) := by
            have e := List.getElem_insertIdx_add_succ l x i (a - i - 1)
              (by omega : i + (a - i - 1) < l.length)
            simp only [show i + (a - i - 1) = a - 1 from by omega] at e
            simp only [show a - 1 + 1 = a from by omega] at e
            exact e
          rw [ha2]
          exact hpair (a - 1) (b - 1) (by omega) (by omega) (by omega)

/-- getD after set, at the written index. -/
theorem getD_set_self2 {α : Type} [Inhabited α] (l : List α) (p : Nat) (e : α)
    (hp : p < l.length) : (l.set p e).getD p default = e := by
  rw [List.getD_eq_getElem _ _ (by simpa using hp)]
  simp

/-- getD after set, at other indices. -/
theorem getD_set_ne2 {α : Type} [Inhabited α] (l : List α) (p k : Nat) (e : α)
    (h : k ≠ p) : (l.set p e).getD k default = l.getD k default := by
  by_cases hk : k < l.length
  · rw [List.getD_eq_getElem _ _ (by simpa using hk), List.getD_eq_getElem _ _ hk]
    exact List.getElem_set_ne (show p ≠ k from by omega) (by simpa using hk)
  · have hk2 : l.length ≤ k := Nat.le_of_not_lt hk
    rw [List.getD_eq_default (l.set p e) default (by rw [List.length_set]; exact hk2),
      List.getD_eq_default l default hk2]

/-- On a sorted entries list, search locates the (unique) index holding a
given stored id. -/
theorem settingSearch_found (s : List settingEntryV2) (hinv : SInv s) (IDb : Nat)
    (p : Nat) (hp : p < s.length) (hpid : (s.getD p default).ID = IDb) :
    (settingEntriesV2.search s IDb).1 = p ∧ (settingEntriesV2.search s IDb).2 = true := by
  obtain ⟨hle, hbelow, hat, hfound⟩ := settingSearch_spec s hinv IDb
  have hkeyp : fromV2BuggySettingID ((s.getD p default).ID) = fromV2BuggySettingID IDb := by
    rw [hpid]
  have hrp : (settingEntriesV2.search s IDb).1 ≤ p := by
    by_contra hc
    have := hbelow p (by omega)
    omega
  have hpr : p ≤ (settingEntriesV2.search s IDb).1 := by
    by_contra hc
    have hr_lt : (settingEntriesV2.search s IDb).1 < s.length := by omega
    have h1 := hat hr_lt
    have h2 := settingKey_sorted s hinv (settingEntriesV2.search s IDb).1 p (by omega) hp
    rw [decide_eq_true_eq] at h2
    omega
  have hre : (settingEntriesV2.search s IDb).1 = p := by omega
  refine ⟨hre, hfound.mpr ⟨by omega, by rw [hre]; exact hpid⟩⟩

/-- Retrieval on a sorted entries list holding the looked-up entry. -/
theorem settingGet_of_entry (s2 : List settingEntryV2) (hinv2 : SInv s2)
    (id flags value : Nat) (p : Nat) (hp : p < s2.length)
    (hpe : s2.getD p default =
      { ID := toV2BuggySettingID id, Flags := flags, Value := value }) :
    settingEntriesV2.Get s2 id = (flags, value, true) := by
  obtain ⟨h1, h2⟩ := settingSearch_found s2 hinv2 (toV2BuggySettingID id) p hp (by rw [hpe])
  unfold settingEntriesV2.Get
  dsimp only
  rw [h2, if_pos rfl, h1, hpe]

/-- An entry read back with getD at an in-range index is a member of the list. -/
lemma mem_of_getD {α : Type} [Inhabited α] (l : List α) (k : Nat) (hk : k < l.length)
    (e : α) (he : l.getD k default = e) : e ∈ l := by
  rw [← he, List.getD_eq_getElem _ _ hk]
  exact List.getElem_mem hk

/-- C8: on a well-formed v2 setting-entries container, Set with a valid id,
flags and value succeeds, stores the id in its little-endian-rotated on-wire
form, keeps the container sorted in the corrected key space (with 24-bit ids),
and Get with the canonical id returns exactly the flags and value just Set. -/
theorem spdy_C8_settings_v2_set_get (s : List settingEntryV2) (id flags value : Nat)
    (hinv : SInv s) (hid1 : 1 ≤ id) (hid7 : id ≤ 7)
    (hfl : flags = 0 ∨ flags = 1 ∨ flags = 2) :
    ∃ s2, settingEntriesV2.Set s id flags value = .ok s2 ∧ SInv s2 ∧
      ({ ID := toV2BuggySettingID id, Flags := flags, Value := value } :
        settingEntryV2) ∈ s2 ∧
      settingEntriesV2.Get s2 id = (flags, value, true) := by
  have hcond1 : (decide (id < 1) || decide (id > 7)) = false := by
    simp only [Bool.or_eq_false_iff, decide_eq_false_iff_not]
    omega
  have hflneg : ¬(flags ≠ 0 ∧ flags ≠ 1 ∧ flags ≠ 2) := by tauto
  have hIDb : toV2BuggySettingID id < 16777216 := to_id_small id hid1 hid7
  have htgt : fromV2BuggySettingID (toV2BuggySettingID id) = id :=
    from_to_id id hid1 hid7
  obtain ⟨hle, hbelow, hat, hfound⟩ := settingSearch_spec s hinv (toV2BuggySettingID id)
  unfold settingEntriesV2.Set
  rw [hcond1]
  simp only [Bool.false_eq_true, if_false]
  rw [if_neg hflneg]
  by_cases hf : (settingEntriesV2.search s (toV2BuggySettingID id)).2 = true
  · -- the id is already present: update in place
    rw [if_pos hf]
    obtain ⟨hrlen, hrid⟩ := hfound.mp hf
    have hgdmem : s.getD (settingEntriesV2.search s (toV2BuggySettingID id)).1 default ∈ s := by
      rw [List.getD_eq_getElem _ _ hrlen]
      exact List.getElem_mem hrlen
    have hu : ({ s.getD (settingEntriesV2.search s (toV2BuggySettingID id)).1 default with
        Flags := flags, Value := value } : settingEntryV2) =
        { ID := toV2BuggySettingID id, Flags := flags, Value := value } := by
      rcases hsv : s.getD (settingEntriesV2.search s (toV2BuggySettingID id)).1 default
        with ⟨a1, a2, a3⟩
      rw [hsv] at hrid
      dsimp only at hrid
      rw [hrid]
    rw [hu]
    have hinv2 : SInv (s.set (settingEntriesV2.search s (toV2BuggySettingID id)).1
        { ID := toV2BuggySettingID id, Flags := flags, Value := value }) := by
      constructor
      · intro e he
        rcases List.mem_or_eq_of_mem_set he with h1 | h1
        · exact hinv.1 e h1
        · rw [h1]
          exact hIDb
      · rw [List.pairwise_iff_getElem]
        intro a b ha hb hab
        rw [List.length_set] at ha hb
        have hkey : ∀ (k : Nat) (hk : k < s.length),
            (getElem (s.set (settingEntriesV2.search s (toV2BuggySettingID id)).1
              { ID := toV2BuggySettingID id, Flags := flags, Value := value }) k
              (by rw [List.length_set]; exact hk)).ID = (getElem s k hk).ID := by
          intro k hk
          by_cases hkr : k = (settingEntriesV2.search s (toV2BuggySettingID id)).1
          · subst hkr
            rw [List.getElem_set_self]
            rw [List.getD_eq_getElem _ _ hk] at hrid
            rw [hrid]
          · rw [List.getElem_set_ne (fun hcontra => hkr hcontra.symm) (by
              rw [List.length_set]; exact hk)]
        rw [hkey a ha, hkey b hb]
        exact List.pairwise_iff_getElem.mp hinv.2 a b ha hb hab
    refine ⟨_, rfl, hinv2, ?_, ?_⟩
    · exact mem_of_getD _ _ (by rw [List.length_set]; exact hrlen) _
        (getD_set_self2 s _ _ hrlen)
    · exact settingGet_of_entry _ hinv2 id flags value
        (settingEntriesV2.search s (toV2BuggySettingID id)).1
        (by rw [List.length_set]; exact hrlen)
        (getD_set_self2 s _ _ hrlen)
  · -- the id is absent: insert at the search position
    rw [if_neg hf]
    have habsent : (settingEntriesV2.search s (toV2BuggySettingID id)).1 < s.length →
        (s.getD (settingEntriesV2.search s (toV2BuggySettingID id)).1 default).ID ≠
          toV2BuggySettingID id := by
      intro hr hcontra
      exact hf (hfound.mpr ⟨hr, hcontra⟩)
    have hafter : ∀ k, (settingEntriesV2.search s (toV2BuggySettingID id)).1 ≤ k →
        k < s.length →
        fromV2BuggySettingID (toV2BuggySettingID id) <
          fromV2BuggySettingID ((s.getD k default).ID) := by
      intro k hk1 hk2
      have hrlen2 : (settingEntriesV2.search s (toV2BuggySettingID id)).1 < s.length := by
        omega
      have hge := hat hrlen2
      have hne : fromV2BuggySettingID ((s.getD
          (settingEntriesV2.search s (toV2BuggySettingID id)).1 default).ID) ≠
          fromV2BuggySettingID (toV2BuggySettingID id) := by
        intro hcontra
        rw [htgt] at hcontra
        have hzlt : (s.getD (settingEntriesV2.search s (toV2BuggySettingID id)).1
            default).ID < 16777216 := by
          apply hinv.1
          rw [List.getD_eq_getElem _ _ hrlen2]
          exact List.getElem_mem hrlen2
        have := fromV2_eq_small _ hzlt id hid1 hid7 hcontra
        exact habsent hrlen2 this
      rcases Nat.eq_or_lt_of_le hk1 with hk3 | hk3
      · rw [← hk3]
        omega
      · have hs := settingKey_sorted s hinv
          (settingEntriesV2.search s (toV2BuggySettingID id)).1 k hk3 hk2
        rw [decide_eq_true_eq] at hs
        omega
    have hinv2 : SInv (listInsertAt s (settingEntriesV2.search s (toV2BuggySettingID id)).1
        { ID := toV2BuggySettingID id, Flags := flags, Value := value }) := by
      constructor
      · intro e he
        rcases mem_listInsertAt _ _ _ _ he with h1 | h1
        · rw [h1]
          exact hIDb
        · exact hinv.1 e h1
      · apply pairwise_insertAt s _ _ hle hinv.2
        · intro k hk
          exact hbelow k hk
        · intro k hk1 hk2
          exact hafter k hk1 hk2
    have hgdself := getD_insertAt_self s
      (settingEntriesV2.search s (toV2BuggySettingID id)).1
      ({ ID := toV2BuggySettingID id, Flags := flags, Value := value } : settingEntryV2) hle
    refine ⟨_, rfl, hinv2, ?_, ?_⟩
    · exact mem_of_getD _ _ (by rw [length_listInsertAt _ _ _ hle]; omega) _ hgdself
    · exact settingGet_of_entry _ hinv2 id flags value
        (settingEntriesV2.search s (toV2BuggySettingID id)).1
        (by rw [length_listInsertAt _ _ _ hle]; omega)
        hgdself

/-- Witness for C8: on the empty container, Set id 4 (MAX_CONCURRENT_STREAMS)
with flags 1 and value 100 stores the rotated id 0x040000 and Get 4 retrieves
(1, 100). -/
theorem spdy_C8_settings_v2_set_get_witness :
    ∃ s2, settingEntriesV2.Set [] 4 1 100 = .ok s2 ∧ SInv s2 ∧
      ({ ID := toV2BuggySettingID 4, Flags := 1, Value := 100 } :
        settingEntryV2) ∈ s2 ∧
      settingEntriesV2.Get s2 4 = (1, 100, true) :=
  spdy_C8_settings_v2_set_get [] 4 1 100
    ⟨fun e he => absurd he (List.not_mem_nil e), List.Pairwise.nil⟩
    (by omega) (by omega) (Or.inr (Or.inl rfl))

/-- writeBufFrame emits frames satisfying the C7 per-frame check and keeps
the buffer length bounded. -/
theorem writeBufFrame_ok (w : RespWriter) (fin : Bool) (h : w.bufLen ≤ MAX_DATA_LEN) :
    ((w.writeBufFrame fin).2.1).all dataFrameOk = true ∧
      (w.writeBufFrame fin).1.bufLen ≤ MAX_DATA_LEN := by
  unfold RespWriter.writeBufFrame
  dsimp only
  split
  · exact ⟨rfl, by simp⟩
  · refine ⟨?_, h⟩
    simp [dataFrameOk, h]

/-- The chunking loop emits frames satisfying the C7 per-frame check and
keeps the buffer length bounded. -/
theorem writeLoop_ok (fuel : Nat) :
    ∀ (w : RespWriter) (p : Nat), w.bufLen ≤ MAX_DATA_LEN →
      ((RespWriter.writeLoop fuel w p).2).all dataFrameOk = true ∧
        (RespWriter.writeLoop fuel w p).1.bufLen ≤ MAX_DATA_LEN := by
  induction fuel with
  | zero => intro w p h; exact ⟨rfl, h⟩
  | succ fuel ih =>
    intro w p h
    unfold RespWriter.writeLoop
    by_cases hp : p = 0
    · rw [if_pos hp]
      exact ⟨rfl, h⟩
    · rw [if_neg hp]
      by_cases hlt : p < MAX_DATA_LEN - w.bufLen
      · rw [if_pos hlt]
        refine ⟨rfl, ?_⟩
        show w.bufLen + p ≤ MAX_DATA_LEN
        unfold MAX_DATA_LEN at *
        omega
      · rw [if_neg hlt]
        dsimp only
        have hfull : ({ w with bufLen := w.bufLen + (MAX_DATA_LEN - w.bufLen) } :
            RespWriter).bufLen ≤ MAX_DATA_LEN := by
          show w.bufLen + (MAX_DATA_LEN - w.bufLen) ≤ MAX_DATA_LEN
          omega
        obtain ⟨hev, hbuf⟩ :=
          writeBufFrame_ok { w with bufLen := w.bufLen + (MAX_DATA_LEN - w.bufLen) } false hfull
        rcases hsplit : RespWriter.writeBufFrame
            { w with bufLen := w.bufLen + (MAX_DATA_LEN - w.bufLen) } false with ⟨w2, evs, err⟩
        rw [hsplit] at hev hbuf
        dsimp only at hev hbuf ⊢
        cases err with
        | true =>
          simp only [if_true]
          exact ⟨hev, hbuf⟩
        | false =>
          simp only [Bool.false_eq_true, if_false]
          have h0 : ({ w2 with bufLen := 0 } : RespWriter).bufLen ≤ MAX_DATA_LEN := by
            show (0 : Nat) ≤ MAX_DATA_LEN
            omega
          obtain ⟨hev2, hbuf2⟩ := ih { w2 with bufLen := 0 } (p - (MAX_DATA_LEN - w.bufLen)) h0
          refine ⟨?_, hbuf2⟩
          simp only [List.all_append]
          simp [hev, hev2]

/-- Write emits frames satisfying the C7 per-frame check and keeps the buffer
length bounded. -/
theorem rwWrite_ok (w : RespWriter) (p : Nat) (h : w.bufLen ≤ MAX_DATA_LEN) :
    ((w.Write p).2).all dataFrameOk = true ∧ (w.Write p).1.bufLen ≤ MAX_DATA_LEN := by
  have hwh : (w.WriteHeader).bufLen ≤ MAX_DATA_LEN := by
    unfold RespWriter.WriteHeader
    split
    · exact h
    · exact h
  unfold RespWriter.Write
  dsimp only
  by_cases hc : (w.WriteHeader).ctrlFrameWritten
  · rw [if_pos hc]
    obtain ⟨hev, hbuf⟩ := writeLoop_ok (p + 2) w.WriteHeader p hwh
    exact ⟨by simpa using hev, hbuf⟩
  · rw [if_neg hc]
    have hwh2 : ({ w.WriteHeader with ctrlFrameWritten := true } : RespWriter).bufLen ≤
        MAX_DATA_LEN := hwh
    obtain ⟨hev, hbuf⟩ :=
      writeLoop_ok (p + 2) { w.WriteHeader with ctrlFrameWritten := true } p hwh2
    refine ⟨?_, hbuf⟩
    simpa [dataFrameOk] using hev

/-- Close emits frames satisfying the C7 per-frame check and keeps the buffer
length bounded. -/
theorem rwClose_ok (w : RespWriter) (h : w.bufLen ≤ MAX_DATA_LEN) :
    ((w.Close).2).all dataFrameOk = true ∧ (w.Close).1.bufLen ≤ MAX_DATA_LEN := by
  unfold RespWriter.Close
  split
  · split
    · exact ⟨rfl, h⟩
    · exact ⟨rfl, h⟩
  · split
    · obtain ⟨hev, hbuf⟩ := writeBufFrame_ok w true h
      exact ⟨hev, hbuf⟩
    · exact ⟨rfl, h⟩

/-- C7 (amended): every data frame produced by the response writer carries at
most MAX_DATA_LEN = 10240 bytes, and carries FIN exactly when it was flushed
by Close or when the cumulative body bytes reached a content length set in
the response headers.  (Close flushes no terminal frame when a content length
is set and the buffer is empty, so such a response can end without FIN: see
the counterexample theorem.) -/
theorem spdy_C7_data_frame_size_and_fin (settable : Bool) (cl : Option Nat)
    (ops : List RWOp) :
    ((runRW (newResponseWriterV3 settable cl) ops).2).all dataFrameOk = true := by
  suffices hgen : ∀ (ops : List RWOp) (w : RespWriter), w.bufLen ≤ MAX_DATA_LEN →
      ((runRW w ops).2).all dataFrameOk = true ∧
        (runRW w ops).1.bufLen ≤ MAX_DATA_LEN by
    exact (hgen ops (newResponseWriterV3 settable cl) (by simp [newResponseWriterV3])).1
  intro ops
  induction ops with
  | nil => intro w h; exact ⟨rfl, h⟩
  | cons op rest ih =>
    intro w h
    have hstep : ((runRWStep w op).2).all dataFrameOk = true ∧
        (runRWStep w op).1.bufLen ≤ MAX_DATA_LEN := by
      cases op with
      | write n => exact rwWrite_ok w n h
      | writeHeader =>
        refine ⟨rfl, ?_⟩
        show (w.WriteHeader).bufLen ≤ MAX_DATA_LEN
        unfold RespWriter.WriteHeader
        split
        · exact h
        · exact h
      | close => exact rwClose_ok w h
    obtain ⟨hev, hbuf⟩ := hstep
    obtain ⟨hev2, hbuf2⟩ := ih (runRWStep w op).1 hbuf
    show ((runRW (runRWStep w op).1 rest).1, (runRWStep w op).2 ++
        (runRW (runRWStep w op).1 rest).2).2.all dataFrameOk = true ∧
      ((runRW (runRWStep w op).1 rest).1, (runRWStep w op).2 ++
        (runRW (runRWStep w op).1 rest).2).1.bufLen ≤ MAX_DATA_LEN
    refine ⟨?_, hbuf2⟩
    simp only [List.all_append]
    simp [hev, hev2]

/-- Go string comparison is irreflexive. -/
lemma goStrLess_irrefl (a : GoStr) : goStrLess a a = false := by
  induction a with
  | nil => rfl
  | cons c t ih => simp [goStrLess, ih]

/-- Go string comparison is transitive. -/
lemma goStrLess_trans (a : GoStr) : ∀ b c : GoStr,
    goStrLess a b = true → goStrLess b c = true → goStrLess a c = true := by
  induction a with
  | nil =>
    intro b c hab hbc
    cases b with
    | nil => simp [goStrLess] at hab
    | cons y ys =>
      cases c with
      | nil => simp [goStrLess] at hbc
      | cons z zs => rfl
  | cons x xs ih =>
    intro b c hab hbc
    cases b with
    | nil => simp [goStrLess] at hab
    | cons y ys =>
      cases c with
      | nil => simp [goStrLess] at hbc
      | cons z zs =>
        simp only [goStrLess] at hab hbc ⊢
        by_cases hxy : x < y
        · by_cases hyz : y < z
          · rw [if_pos (show x < z by omega)]
          · by_cases hzy : z < y
            · rw [if_neg hyz, if_pos hzy] at hbc
              simp at hbc
            · rw [if_pos (show x < z by omega)]
        · by_cases hyx : y < x
          · rw [if_neg hxy, if_pos hyx] at hab
            simp at hab
          · by_cases hyz : y < z
            · rw [if_pos (show x < z by omega)]
            · by_cases hzy : z < y
              · rw [if_neg hyz, if_pos hzy] at hbc
                simp at hbc
              · rw [if_neg hxy, if_neg hyx] at hab
                rw [if_neg hyz, if_neg hzy] at hbc
                rw [if_neg (show ¬ x < z by omega), if_neg (show ¬ z < x by omega)]
                exact ih ys zs hab hbc

/-- Go string comparison is connected: incomparable strings are equal. -/
lemma goStrLess_conn (a : GoStr) : ∀ b : GoStr, goStrLess a b = false →
    a = b ∨ goStrLess b a = true := by
  induction a with
  | nil =>
    intro b h
    cases b with
    | nil => exact Or.inl rfl
    | cons y ys => simp [goStrLess] at h
  | cons x xs ih =>
    intro b h
    cases b with
    | nil => exact Or.inr rfl
    | cons y ys =>
      simp only [goStrLess] at h
      by_cases hxy : x < y
      · rw [if_pos hxy] at h
        simp at h
      · by_cases hyx : y < x
        · refine Or.inr ?_
          simp only [goStrLess]
          rw [if_pos hyx]
        · rw [if_neg hxy, if_neg hyx] at h
          rcases ih ys h with h2 | h2
          · exact Or.inl (by rw [show x = y by omega, h2])
          · refine Or.inr ?_
            simp only [goStrLess]
            rw [if_neg hyx, if_neg hxy]
            exact h2

/-- strings.ToLower is idempotent on byte data. -/
lemma goToLower_idem (s : GoStr) : goToLower (goToLower s) = goToLower s := by
  unfold goToLower
  rw [List.map_map]
  apply List.map_congr_left
  intro c _
  simp only [Function.comp_apply]
  by_cases h : 65 ≤ c ∧ c ≤ 90
  · rw [if_pos h, if_neg (by omega)]
  · rw [if_neg h, if_neg h]

/-- NUL-joining a single string is that string. -/
lemma intercalate_single (x : GoStr) : List.intercalate [0] [x] = x := by
  simp [List.intercalate, List.intersperse]

/-- NUL-joining unfolds over a head of at least two strings. -/
lemma intercalate_cons2 (x y : GoStr) (l : List GoStr) :
    List.intercalate [0] (x :: y :: l) = x ++ 0 :: List.intercalate [0] (y :: l) := by
  simp [List.intercalate, List.intersperse]

/-- NUL-joining splits over an append of nonempty batch lists. -/
lemma intercalate_append_nul (vs2 : List GoStr) (h2 : vs2 ≠ []) : ∀ vs1 : List GoStr,
    vs1 ≠ [] →
    List.intercalate [0] (vs1 ++ vs2) =
      List.intercalate [0] vs1 ++ 0 :: List.intercalate [0] vs2 := by
  intro vs1
  induction vs1 with
  | nil => intro h1; exact absurd rfl h1
  | cons x t ih =>
    intro _
    cases t with
    | nil =>
      cases vs2 with
      | nil => exact absurd rfl h2
      | cons z zs =>
        show List.intercalate [0] (x :: z :: zs) =
          List.intercalate [0] [x] ++ 0 :: List.intercalate [0] (z :: zs)
        rw [intercalate_cons2, intercalate_single]
    | cons y t2 =>
      show List.intercalate [0] (x :: ((y :: t2) ++ vs2)) =
        List.intercalate [0] (x :: y :: t2) ++ 0 :: List.intercalate [0] vs2
      have e1 : (y :: t2) ++ vs2 = y :: (t2 ++ vs2) := rfl
      rw [e1, intercalate_cons2, ← e1, ih (by simp), intercalate_cons2]
      simp

/-- The sort.Search loop depends only on the predicate values. -/
lemma goSearchAux_congr (f g : Nat → Bool) (hfg : ∀ k, f k = g k) :
    ∀ fuel i j : Nat, goSearchAux fuel f i j = goSearchAux fuel g i j := by
  intro fuel
  induction fuel with
  | zero => intro i j; rfl
  | succ m ih =>
    intro i j
    simp only [goSearchAux]
    rw [hfg]
    by_cases hij : i < j
    · rw [if_pos hij, if_pos hij]
      by_cases hm : g ((i + j) / 2) = true
      · rw [if_pos hm, if_pos hm, ih]
      · rw [if_neg hm, if_neg hm, ih]
    · rw [if_neg hij, if_neg hij]

/-- On a block satisfying HInv, names are strictly sorted index-wise. -/
lemma headerKey_sorted (h : List nameValue) (hinv : HInv h) :
    ∀ a b : Nat, a < b → b < h.length →
      goStrLess ((h.getD a default)).Name ((h.getD b default)).Name = true := by
  intro a b hab hb
  rw [List.getD_eq_getElem _ _ (by omega), List.getD_eq_getElem _ _ hb]
  exact List.pairwise_iff_getElem.mp hinv.2 a b (by omega) hb hab

/-- Specification of the header-block binary search on a sorted block: the
returned index is the least one whose name is not below the target, and the
found flag holds exactly when the name at that index equals the target. -/
lemma headerSearch_spec (h : List nameValue) (hinv : HInv h) (n : GoStr) :
    (headerBlockV2.search h n).1 ≤ h.length ∧
      (∀ k, k < (headerBlockV2.search h n).1 →
        goStrLess ((h.getD k default)).Name n = true) ∧
      ((headerBlockV2.search h n).1 < h.length →
        goStrLess ((h.getD (headerBlockV2.search h n).1 default)).Name n = false) ∧
      ((headerBlockV2.search h n).2 = true ↔
        ((headerBlockV2.search h n).1 < h.length ∧
          (h.getD (headerBlockV2.search h n).1 default).Name = n)) := by
  have hpred : (fun k => goStrGE ((h.getD k default)).Name n) =
      (fun k => !(goStrLess ((h.getD k default)).Name n)) := by
    funext k
    rfl
  have hspec := sortedSearch_spec goStrLess goStrLess_trans
    (fun k => (h.getD k default).Name) h.length n (headerKey_sorted h hinv)
  unfold headerBlockV2.search
  dsimp only
  rw [hpred]
  refine ⟨hspec.1, hspec.2.1, hspec.2.2, ?_⟩
  constructor
  · intro hfound
    have h1 := (Bool.and_eq_true _ _).mp hfound
    exact ⟨of_decide_eq_true h1.1, by simpa using h1.2⟩
  · intro ⟨h1, h2⟩
    apply (Bool.and_eq_true _ _).mpr
    exact ⟨decide_eq_true h1, by simpa using h2⟩

/-- On a sorted header block, search locates the index holding a given
name. -/
lemma headerSearch_found (h : List nameValue) (hinv : HInv h) (n : GoStr)
    (p : Nat) (hp : p < h.length) (hpn : (h.getD p default).Name = n) :
    (headerBlockV2.search h n).1 = p ∧ (headerBlockV2.search h n).2 = true := by
  obtain ⟨hle, hbelow, hat, hfound⟩ := headerSearch_spec h hinv n
  have hrp : (headerBlockV2.search h n).1 ≤ p := by
    by_contra hc
    have h2 := hbelow p (by omega)
    rw [hpn, goStrLess_irrefl] at h2
    simp at h2
  have hpr : p ≤ (headerBlockV2.search h n).1 := by
    by_contra hc
    push_neg at hc
    have hr_lt : (headerBlockV2.search h n).1 < h.length := by omega
    have h1 := hat hr_lt
    have h2 := headerKey_sorted h hinv _ p hc hp
    rw [hpn] at h2
    rcases goStrLess_conn _ n h1 with h3 | h3
    · rw [h3, goStrLess_irrefl] at h2
      simp at h2
    · have h4 := goStrLess_trans n _ n h3 h2
      rw [goStrLess_irrefl] at h4
      simp at h4
  have hre : (headerBlockV2.search h n).1 = p := by omega
  exact ⟨hre, hfound.mpr ⟨by omega, by rw [hre]; exact hpn⟩⟩

/-- Characterization of a successful lookup on a sorted block: a value is
returned exactly for a stored entry carrying the looked-up name. -/
lemma hbLookup_some_iff (h : List nameValue) (hinv : HInv h) (n : GoStr) (w : GoStr) :
    hbLookup h n = some w ↔
      ∃ p, p < h.length ∧ (h.getD p default).Name = n ∧ (h.getD p default).Value = w := by
  constructor
  · intro hl
    unfold hbLookup at hl
    dsimp only at hl
    obtain ⟨hle, hbelow, hat, hfound⟩ := headerSearch_spec h hinv n
    by_cases hf : (headerBlockV2.search h n).2 = true
    · rw [hf, if_pos rfl] at hl
      obtain ⟨hlt, heq⟩ := hfound.mp hf
      exact ⟨(headerBlockV2.search h n).1, hlt, heq, by injection hl⟩
    · rw [if_neg (by simpa using hf)] at hl
      cases hl
  · intro ⟨p, hp, hpn, hpv⟩
    obtain ⟨h1, h2⟩ := headerSearch_found h hinv n p hp hpn
    unfold hbLookup
    dsimp only
    rw [h2, if_pos rfl, h1, hpv]

/-- Characterization of a failed lookup on a sorted block: no stored entry
carries the looked-up name. -/
lemma hbLookup_none_iff (h : List nameValue) (hinv : HInv h) (n : GoStr) :
    hbLookup h n = none ↔ ∀ p, p < h.length → (h.getD p default).Name ≠ n := by
  constructor
  · intro hl p hp hpn
    obtain ⟨h1, h2⟩ := headerSearch_found h hinv n p hp hpn
    unfold hbLookup at hl
    dsimp only at hl
    rw [h2, if_pos rfl] at hl
    cases hl
  · intro hnone
    unfold hbLookup
    dsimp only
    by_cases hf : (headerBlockV2.search h n).2 = true
    · obtain ⟨hle, hbelow, hat, hfound⟩ := headerSearch_spec h hinv n
      obtain ⟨hlt, heq⟩ := hfound.mp hf
      exact absurd heq (hnone _ hlt)
    · rw [if_neg (by simpa using hf)]

/-- The header-block search depends only on the length and the names. -/
lemma headerSearch_congr (h h2 : List nameValue) (hlen : h2.length = h.length)
    (hnames : ∀ k, (h2.getD k default).Name = (h.getD k default).Name) (n : GoStr) :
    headerBlockV2.search h2 n = headerBlockV2.search h n := by
  unfold headerBlockV2.search
  dsimp only
  have hpred : ∀ k, goStrGE ((h2.getD k default)).Name n =
      goStrGE ((h.getD k default)).Name n := by
    intro k
    rw [hnames k]
  have hsearch : goSortSearch h2.length (fun k => goStrGE ((h2.getD k default)).Name n) =
      goSortSearch h.length (fun k => goStrGE ((h.getD k default)).Name n) := by
    rw [hlen]
    unfold goSortSearch
    exact goSearchAux_congr _ _ hpred h.length 0 h.length
  rw [hsearch, hlen, hnames]

/-- Single-step specification of headerBlockV2.Add on a well-formed block:
the add succeeds, preserves the invariant, and updates the per-name value
map by appending the NUL-joined batch under the lowercased name. -/
lemma hbAdd_spec (h : List nameValue) (name : GoStr) (value : List GoStr)
    (vsOf : GoStr → List GoStr) (hinv : HInv h)
    (hvs : ∀ n, hbLookup h n = storedOf (vsOf n))
    (hn : name ≠ []) (hv : value ≠ []) :
    ∃ h2, headerBlockV2.Add h name value = .ok h2 ∧ HInv h2 ∧
      ∀ n, hbLookup h2 n =
        storedOf (vsOf n ++ if goToLower name = n then value else []) := by
  have hlen0 : ¬ name.length = 0 := by simpa using hn
  obtain ⟨hsle, hsbelow, hsat, hsfound⟩ := headerSearch_spec h hinv (goToLower name)
  unfold headerBlockV2.Add
  rw [if_neg hlen0]
  dsimp only
  by_cases hf : (headerBlockV2.search h (goToLower name)).2 = true
  · -- the lowercased name is already stored: append to the entry in place
    rw [hf, if_pos rfl]
    obtain ⟨hilt, hiname⟩ := hsfound.mp hf
    have hnames : ∀ k,
        ((h.set (headerBlockV2.search h (goToLower name)).1
          { h.getD (headerBlockV2.search h (goToLower name)).1 default with
            Value := (h.getD (headerBlockV2.search h (goToLower name)).1 default).Value ++
              0 :: List.intercalate [0] value }).getD k default).Name =
        ((h.getD k default)).Name := by
      intro k
      by_cases hki : k = (headerBlockV2.search h (goToLower name)).1
      · subst hki
        rw [getD_set_self2 _ _ _ hilt]
      · rw [getD_set_ne2 _ _ _ _ hki]
    have hlen2 : (h.set (headerBlockV2.search h (goToLower name)).1
        { h.getD (headerBlockV2.search h (goToLower name)).1 default with
          Value := (h.getD (headerBlockV2.search h (goToLower name)).1 default).Value ++
            0 :: List.intercalate [0] value }).length = h.length := by
      simp
    have hinv2 : HInv (h.set (headerBlockV2.search h (goToLower name)).1
        { h.getD (headerBlockV2.search h (goToLower name)).1 default with
          Value := (h.getD (headerBlockV2.search h (goToLower name)).1 default).Value ++
            0 :: List.intercalate [0] value }) := by
      constructor
      · intro e he
        rcases List.mem_or_eq_of_mem_set he with h1 | h1
        · exact hinv.1 e h1
        · rw [h1]
          show goToLower ((h.getD (headerBlockV2.search h (goToLower name)).1 default)).Name =
            ((h.getD (headerBlockV2.search h (goToLower name)).1 default)).Name
          exact hinv.1 _ (mem_of_getD _ _ hilt _ rfl)
      · rw [List.pairwise_iff_getElem]
        intro a b ha hb hab
        rw [List.length_set] at ha hb
        have hkey : ∀ (k : Nat) (hk : k < h.length),
            (getElem (h.set (headerBlockV2.search h (goToLower name)).1
              { h.getD (headerBlockV2.search h (goToLower name)).1 default with
                Value := (h.getD (headerBlockV2.search h (goToLower name)).1 default).Value ++
                  0 :: List.intercalate [0] value }) k
              (by rw [List.length_set]; exact hk)).Name = (getElem h k hk).Name := by
          intro k hk
          by_cases hkr : k = (headerBlockV2.search h (goToLower name)).1
          · subst hkr
            rw [List.getElem_set_self]
            show (h.getD (headerBlockV2.search h (goToLower name)).1 default).Name =
              (getElem h (headerBlockV2.search h (goToLower name)).1 hk).Name
            rw [List.getD_eq_getElem _ _ hk]
          · rw [List.getElem_set_ne (fun hcontra => hkr hcontra.symm) (by
              rw [List.length_set]; exact hk)]
        rw [hkey a ha, hkey b hb]
        exact List.pairwise_iff_getElem.mp hinv.2 a b ha hb hab
    refine ⟨_, rfl, hinv2, ?_⟩
    intro n
    have hOld : hbLookup h (goToLower name) =
        some ((h.getD (headerBlockV2.search h (goToLower name)).1 default).Value) := by
      unfold hbLookup
      dsimp only
      rw [hf, if_pos rfl]
    have hvnl := hvs (goToLower name)
    rw [hOld] at hvnl
    have hvne : vsOf (goToLower name) ≠ [] := by
      intro hcontra
      rw [hcontra] at hvnl
      unfold storedOf at hvnl
      rw [if_pos rfl] at hvnl
      cases hvnl
    have hvval : (h.getD (headerBlockV2.search h (goToLower name)).1 default).Value =
        List.intercalate [0] (vsOf (goToLower name)) := by
      unfold storedOf at hvnl
      rw [if_neg hvne] at hvnl
      exact Option.some.inj hvnl
    by_cases hne : goToLower name = n
    · rw [if_pos hne]
      subst hne
      have hlook : hbLookup (h.set (headerBlockV2.search h (goToLower name)).1
          { h.getD (headerBlockV2.search h (goToLower name)).1 default with
            Value := (h.getD (headerBlockV2.search h (goToLower name)).1 default).Value ++
              0 :: List.intercalate [0] value }) (goToLower name) =
          some ((h.getD (headerBlockV2.search h (goToLower name)).1 default).Value ++
            0 :: List.intercalate [0] value) := by
        unfold hbLookup
        dsimp only
        rw [headerSearch_congr h _ hlen2 hnames]
        rw [hf, if_pos rfl, getD_set_self2 _ _ _ hilt]
      rw [hlook, hvval]
      unfold storedOf
      rw [if_neg (show ¬ (vsOf (goToLower name) ++ value = []) from by
        intro hcontra
        exact hvne (List.append_eq_nil.mp hcontra).1)]
      rw [intercalate_append_nul value hv _ hvne]
    · rw [if_neg hne, List.append_nil, ← hvs n]
      obtain ⟨hsle2, hsbelow2, hsat2, hsfound2⟩ := headerSearch_spec h hinv n
      unfold hbLookup
      dsimp only
      rw [headerSearch_congr h _ hlen2 hnames]
      by_cases hf2 : (headerBlockV2.search h n).2 = true
      · rw [hf2, if_pos rfl, if_pos rfl]
        obtain ⟨hjlt, hjname⟩ := hsfound2.mp hf2
        have hj : (headerBlockV2.search h n).1 ≠
            (headerBlockV2.search h (goToLower name)).1 := by
          intro hcontra
          apply hne
          rw [← hiname, ← hcontra]
          exact hjname
        rw [getD_set_ne2 _ _ _ _ hj]
      · rw [if_neg hf2, if_neg hf2]
  · -- the lowercased name is absent: insert a fresh entry at the search point
    rw [if_neg hf]
    have hnil : hbLookup h (goToLower name) = none := by
      unfold hbLookup
      dsimp only
      rw [if_neg hf]
    have hvnl := hvs (goToLower name)
    rw [hnil] at hvnl
    have hvempty : vsOf (goToLower name) = [] := by
      by_contra hc
      unfold storedOf at hvnl
      rw [if_neg hc] at hvnl
      cases hvnl
    have hafter : ∀ k, (headerBlockV2.search h (goToLower name)).1 ≤ k → k < h.length →
        goStrLess (goToLower name) ((h.getD k default)).Name = true := by
      intro k hk1 hk2
      have hil : (headerBlockV2.search h (goToLower name)).1 < h.length := by omega
      have h1 := hsat hil
      have hne2 : (h.getD (headerBlockV2.search h (goToLower name)).1 default).Name ≠
          goToLower name := by
        intro hcontra
        exact hf (hsfound.mpr ⟨hil, hcontra⟩)
      rcases goStrLess_conn _ _ h1 with h3 | h3
      · exact absurd h3 hne2
      · rcases Nat.eq_or_lt_of_le hk1 with hk3 | hk3
        · rw [← hk3]
          exact h3
        · exact goStrLess_trans _ _ _ h3 (headerKey_sorted h hinv _ k hk3 hk2)
    have hinv2 : HInv (listInsertAt h (headerBlockV2.search h (goToLower name)).1
        { Name := goToLower name, Value := List.intercalate [0] value }) := by
      constructor
      · intro e he
        rcases mem_listInsertAt _ _ _ _ he with h1 | h1
        · rw [h1]
          exact goToLower_idem name
        · exact hinv.1 e h1
      · exact pairwise_insertAt h _ _ hsle hinv.2
          (fun k hk => hsbelow k hk) (fun k hk1 hk2 => hafter k hk1 hk2)
    have hlen2 : (listInsertAt h (headerBlockV2.search h (goToLower name)).1
        { Name := goToLower name, Value := List.intercalate [0] value }).length =
        h.length + 1 := length_listInsertAt _ _ _ hsle
    refine ⟨_, rfl, hinv2, ?_⟩
    intro n
    by_cases hne : goToLower name = n
    · rw [if_pos hne]
      subst hne
      rw [hvempty, List.nil_append]
      have hmem := (hbLookup_some_iff _ hinv2 (goToLower name)
        (List.intercalate [0] value)).mpr
        ⟨(headerBlockV2.search h (goToLower name)).1, by rw [hlen2]; omega,
         by rw [getD_insertAt_self _ _ _ hsle],
         by rw [getD_insertAt_self _ _ _ hsle]⟩
      rw [hmem]
      unfold storedOf
      rw [if_neg hv]
    · rw [if_neg hne, List.append_nil, ← hvs n]
      rcases hOldv : hbLookup h n with _ | w
      · apply (hbLookup_none_iff _ hinv2 n).mpr
        intro p hp hpn
        rw [hlen2] at hp
        have hnone := (hbLookup_none_iff h hinv n).mp hOldv
        by_cases hpi : p < (headerBlockV2.search h (goToLower name)).1
        · rw [getD_insertAt_lt _ _ _ _ hsle hpi] at hpn
          exact hnone p (by omega) hpn
        · by_cases hpe : p = (headerBlockV2.search h (goToLower name)).1
          · subst hpe
            rw [getD_insertAt_self _ _ _ hsle] at hpn
            exact hne hpn
          · rw [getD_insertAt_gt _ _ _ _ hsle (by omega) (by omega)] at hpn
            exact hnone (p - 1) (by omega) hpn
      · obtain ⟨p, hp, hpn, hpv⟩ := (hbLookup_some_iff h hinv n w).mp hOldv
        apply (hbLookup_some_iff _ hinv2 n w).mpr
        by_cases hpi : p < (headerBlockV2.search h (goToLower name)).1
        · exact ⟨p, by rw [hlen2]; omega,
            by rw [getD_insertAt_lt _ _ _ _ hsle hpi]; exact hpn,
            by rw [getD_insertAt_lt _ _ _ _ hsle hpi]; exact hpv⟩
        · refine ⟨p + 1, by rw [hlen2]; omega, ?_, ?_⟩
          · rw [getD_insertAt_gt _ _ _ _ hsle (by omega) (by omega)]
            simpa using hpn
          · rw [getD_insertAt_gt _ _ _ _ hsle (by omega) (by omega)]
            simpa using hpv

/-- Running a sequence of Add operations with nonempty names and batches
succeeds, preserves the invariant, and appends every batch to the per-name
value map. -/
lemma runAddsFrom_spec (ops : List (GoStr × List GoStr)) :
    ∀ (h : List nameValue) (vsOf : GoStr → List GoStr), HInv h →
      (∀ n, hbLookup h n = storedOf (vsOf n)) →
      (∀ op ∈ ops, op.1 ≠ [] ∧ op.2 ≠ []) →
      ∃ h2, runAddsFrom h ops = .ok h2 ∧ HInv h2 ∧
        ∀ n, hbLookup h2 n = storedOf (vsOf n ++ addedValues n ops) := by
  induction ops with
  | nil =>
    intro h vsOf hinv hvs hops
    exact ⟨h, rfl, hinv, fun n => by
      rw [show addedValues n [] = [] from rfl, List.append_nil]
      exact hvs n⟩
  | cons op rest ih =>
    intro h vsOf hinv hvs hops
    obtain ⟨hn1, hv1⟩ := hops op (List.mem_cons_self op rest)
    obtain ⟨hmid, hadd, hinvm, hvsm⟩ := hbAdd_spec h op.1 op.2 vsOf hinv hvs hn1 hv1
    obtain ⟨h2, hrun, hinv2, hvs2⟩ :=
      ih hmid _ hinvm hvsm (fun o ho => hops o (List.mem_cons_of_mem op ho))
    refine ⟨h2, ?_, hinv2, ?_⟩
    · show (match headerBlockV2.Add h op.1 op.2 with
        | Except.error e => Except.error e
        | Except.ok hh => runAddsFrom hh rest) = Except.ok h2
      rw [hadd]
      exact hrun
    · intro n
      rw [hvs2 n]
      have hsplit : (vsOf n ++ if goToLower op.1 = n then op.2 else []) ++
          addedValues n rest = vsOf n ++ addedValues n (op :: rest) := by
        rw [List.append_assoc]
        show vsOf n ++ ((if goToLower op.1 = n then op.2 else []) ++ addedValues n rest) =
          vsOf n ++ (if goToLower op.1 = n then op.2 ++ addedValues n rest
            else addedValues n rest)
        by_cases hc : goToLower op.1 = n
        · rw [if_pos hc, if_pos hc]
        · rw [if_neg hc, if_neg hc, List.nil_append]
      rw [hsplit]

/-- The v3 Add driver agrees with the v2 one: the two implementations are
textually identical. -/
lemma runAddsFromV3_eq (ops : List (GoStr × List GoStr)) :
    ∀ h : List nameValue, runAddsFromV3 h ops = runAddsFrom h ops := by
  induction ops with
  | nil => intro h; rfl
  | cons op rest ih =>
    intro h
    show (match headerBlockV3.Add h op.1 op.2 with
      | Except.error e => Except.error e
      | Except.ok hh => runAddsFromV3 hh rest) =
      (match headerBlockV2.Add h op.1 op.2 with
      | Except.error e => Except.error e
      | Except.ok hh => runAddsFrom hh rest)
    have hAdd : headerBlockV3.Add h op.1 op.2 = headerBlockV2.Add h op.1 op.2 := rfl
    rw [hAdd]
    cases headerBlockV2.Add h op.1 op.2 with
    | error e => rfl
    | ok hh => exact ih hh

/-- GetFirst returns the prefix of the stored value up to (excluding) its
first NUL byte, and the empty string for an absent name. -/
lemma hbGetFirst_eq (h : List nameValue) (name : GoStr) :
    headerBlockV2.GetFirst h name =
      (match hbLookup h (goToLower name) with
       | some v => v.takeWhile (fun c => c ≠ 0)
       | none => []) := by
  unfold headerBlockV2.GetFirst hbLookup
  dsimp only
  by_cases hf : (headerBlockV2.search h (goToLower name)).2 = true
  · rw [hf, if_pos rfl, if_pos rfl]
    generalize ((h.getD (headerBlockV2.search h (goToLower name)).1 default)).Value = v
    by_cases hc : v.contains 0 = true
    · rw [if_pos hc]
    · rw [if_neg hc]
      simp at hc
      refine (List.takeWhile_eq_self_iff.mpr ?_).symm
      intro a ha
      simp
      intro h0
      subst h0
      exact hc ha
  · rw [if_neg hf, if_neg hf]

/-- C9: after any sequence of Add operations with nonempty names and nonempty
value batches, starting from an empty v2 or v3 header block: the v3 run
accepts the same operations with the same resulting block; the stored names
are strictly ascending in Go string order, hence pairwise distinct; every
stored name is lowercase; the value stored under each lowercased name is
exactly the NUL-joined concatenation of all value strings added under it
(absent when none were); and GetFirst returns the stored value's prefix up
to the first NUL, in both versions. -/
theorem spdy_C9_header_add_names_getfirst (ops : List (GoStr × List GoStr))
    (hops : ∀ op ∈ ops, op.1 ≠ [] ∧ op.2 ≠ []) (hb : List nameValue)
    (hrun : runAdds ops = .ok hb) :
    runAddsV3 ops = .ok hb ∧
    List.Pairwise (fun a b => goStrLess a b = true) (headerBlockV2.Names hb) ∧
    (headerBlockV2.Names hb).Nodup ∧
    (∀ e ∈ hb, goToLower e.Name = e.Name) ∧
    (∀ n, hbLookup hb n = storedOf (addedValues n ops)) ∧
    (∀ name, headerBlockV2.GetFirst hb name =
      (match hbLookup hb (goToLower name) with
       | some v => v.takeWhile (fun c => c ≠ 0)
       | none => [])) ∧
    List.Pairwise (fun a b => goStrLess a b = true) (headerBlockV3.Names hb) ∧
    (∀ name, headerBlockV3.GetFirst hb name =
      (match hbLookup hb (goToLower name) with
       | some v => v.takeWhile (fun c => c ≠ 0)
       | none => [])) := by
  have hinv0 : HInv [] := ⟨fun e he => absurd he (List.not_mem_nil e), List.Pairwise.nil⟩
  have hvs0 : ∀ n, hbLookup [] n = storedOf ((fun _ => ([] : List GoStr)) n) :=
    fun n => rfl
  obtain ⟨h2, hrun2, hinv2, hvs2⟩ :=
    runAddsFrom_spec ops [] (fun _ => ([] : List GoStr)) hinv0 hvs0 hops
  have hee : (Except.ok h2 : Except String (List nameValue)) = Except.ok hb := by
    rw [← hrun2]
    exact hrun
  have he2 : h2 = hb := by injection hee
  subst he2
  have hpairN : List.Pairwise (fun a b => goStrLess a b = true)
      (h2.map (fun e => e.Name)) := List.pairwise_map.mpr hinv2.2
  refine ⟨?_, hpairN, ?_, hinv2.1, ?_, fun name => hbGetFirst_eq h2 name, hpairN, ?_⟩
  · rw [show runAddsV3 ops = runAddsFromV3 [] ops from rfl, runAddsFromV3_eq ops []]
    exact hrun
  · refine List.Pairwise.imp ?_ hpairN
    intro a b hlt heq
    rw [heq, goStrLess_irrefl] at hlt
    exact absurd hlt (by decide)
  · intro n
    have hthis := hvs2 n
    rwa [List.nil_append] at hthis
  · intro name
    exact hbGetFirst_eq h2 name

/-- Witness for C9 at a concrete run: Add("B", "x"), Add("a", "y", "z"),
Add("B", "w") on the empty block, yielding names a < b with values
"y\x00z" and "x\x00w". -/
theorem spdy_C9_header_add_names_getfirst_witness :
    runAddsV3 [([66], [[120]]), ([97], [[121], [122]]), ([66], [[119]])] =
      .ok [{ Name := [97], Value := [121, 0, 122] },
           { Name := [98], Value := [120, 0, 119] }] ∧
    List.Pairwise (fun a b => goStrLess a b = true)
      (headerBlockV2.Names [{ Name := [97], Value := [121, 0, 122] },
                            { Name := [98], Value := [120, 0, 119] }]) ∧
    (headerBlockV2.Names [{ Name := [97], Value := [121, 0, 122] },
                          { Name := [98], Value := [120, 0, 119] }]).Nodup ∧
    (∀ e ∈ [({ Name := [97], Value := [121, 0, 122] } : nameValue),
            { Name := [98], Value := [120, 0, 119] }],
      goToLower e.Name = e.Name) ∧
    (∀ n, hbLookup [{ Name := [97], Value := [121, 0, 122] },
                    { Name := [98], Value := [120, 0, 119] }] n =
      storedOf (addedValues n [([66], [[120]]), ([97], [[121], [122]]), ([66], [[119]])])) ∧
    (∀ name, headerBlockV2.GetFirst
        [{ Name := [97], Value := [121, 0, 122] },
         { Name := [98], Value := [120, 0, 119] }] name =
      (match hbLookup [{ Name := [97], Value := [121, 0, 122] },
                       { Name := [98], Value := [120, 0, 119] }] (goToLower name) with
       | some v => v.takeWhile (fun c => c ≠ 0)
       | none => [])) ∧
    List.Pairwise (fun a b => goStrLess a b = true)
      (headerBlockV3.Names [{ Name := [97], Value := [121, 0, 122] },
                            { Name := [98], Value := [120, 0, 119] }]) ∧
    (∀ name, headerBlockV3.GetFirst
        [{ Name := [97], Value := [121, 0, 122] },
         { Name := [98], Value := [120, 0, 119] }] name =
      (match hbLookup [{ Name := [97], Value := [121, 0, 122] },
                       { Name := [98], Value := [120, 0, 119] }] (goToLower name) with
       | some v => v.takeWhile (fun c => c ≠ 0)
       | none => [])) :=
  spdy_C9_header_add_names_getfirst
    [([66], [[120]]), ([97], [[121], [122]]), ([66], [[119]])]
    (by decide)
    [{ Name := [97], Value := [121, 0, 122] }, { Name := [98], Value := [120, 0, 119] }]
    rfl

/-- C4: the bitwise round-trip property fails on the source.  Writing the
9-bit value 0x1FF and then 7 padding bits leaves the encoder with pending = 1
but b = 0 after the first call — the leftover low bit of 0x1FF is dropped,
because byte(n << (32-pending) >> (24-pending)) is identically 0 whenever
pending > 0 — so the stream holds 0xFF 0x00 and reading 9 bits back yields
0x1FE, not 0x1FF.  This theorem evaluates the embedded encoder and decoder at
that failing input. -/
theorem spdy_C4_write_read_roundtrip_fails :
    NewEncoder.WriteBits 9 511 = .ok { out := [255], b := 0, pending := 1 } ∧
    encodeAll NewEncoder [(9, 511), (7, 0)] =
      .ok { out := [255, 0], b := 0, pending := 0 } ∧
    decodeAll (NewDecoder [255, 0]) [9, 7] =
      .ok ([510, 0], { inp := [], b := 0, leftOver := 0 }) ∧
    (510 : Nat) ≠ 511 :=
  ⟨rfl, rfl, rfl, by decide⟩

end Burrow
